import Mathlib

/-!
Verification of the RISC-Vibe RV32I two-pass assembler core.

The definitions below are a shallow embedding of the Python sources
(`riscvibe_asm/parser.py`, `registers.py`, `instructions.py`, `pseudo.py`,
`encoder.py`, `assembler.py`).  Python strings are modelled as Lean
`String` (with most logic on the underlying `List Char`), Python ints as
`ℤ`/`ℕ`, and raised exceptions as `Except AsmError`.  Two recurring
translation conventions, justified once here:

* Python `x & (2^k - 1)` on an arbitrary (possibly negative) int yields the
  low `k` bits of the two's-complement representation, which equals
  `x mod 2^k`; it is modelled as `(x % 2^k).toNat` (Lean `%` on `ℤ` is
  `emod`, non-negative for a positive modulus, exactly like Python `%`).
* Python `x >> k` on an int is floor division by `2^k`; Lean `/` on `ℤ`
  (`ediv`) agrees with floor division for a positive divisor, so it is
  modelled as `x / 2^k`.
-/

namespace RiscVibe

/-! Python character/string helpers. -/

/-- Python whitespace as used by `str.strip` (ASCII subset; the sources only
ever deal with ASCII). -/
def isPySpace (c : Char) : Bool :=
  c = ' ' || c = '\t' || c = '\n' || c = '\r' || c = '\x0b' || c = '\x0c'

/-- Python `str.strip()` on a character list. -/
def stripList (l : List Char) : List Char :=
  ((l.dropWhile isPySpace).reverse.dropWhile isPySpace).reverse

/-- Python `str.strip()`. -/
def pyStrip (s : String) : String := String.mk (stripList s.data)

/-- Python `str.lower()` (ASCII). -/
def pyLower (s : String) : String := String.mk (s.data.map Char.toLower)

/-- Test whether `l` begins with `p` (Python `str.startswith`). -/
def listStartsWith : List Char → List Char → Bool
  | _, [] => true
  | [], _ :: _ => false
  | c :: l, p :: ps => c = p && listStartsWith l ps

/-! Decimal rendering of integers (Python `str(int)`). -/

/-- Decimal digits of a natural number, most significant first; the
fuel argument (any bound above the value) keeps the recursion
structural. -/
def natDigitsAux : ℕ → ℕ → List Char
  | 0, _ => []
  | fuel + 1, n =>
    if n < 10 then [Char.ofNat (48 + n)]
    else natDigitsAux fuel (n / 10) ++ [Char.ofNat (48 + n % 10)]

/-- Decimal digits of a natural number, most significant first. -/
def natDigits (n : ℕ) : List Char := natDigitsAux (n + 1) n

/-- Python `str(n)` for a natural number. -/
def natStr (n : ℕ) : String := String.mk (natDigits n)

/-- Python `str(i)` for an integer. -/
def intStr (i : ℤ) : String :=
  if i < 0 then "-" ++ natStr i.natAbs else natStr i.toNat

/-! Python `int(s, base)`. -/

/-- Value of one digit character in the given base (Python `int` digit
rules, without underscore separators, which never occur in this
repository). -/
def digitVal (base : ℕ) (c : Char) : Option ℕ :=
  let v : Option ℕ :=
    if 48 ≤ c.toNat ∧ c.toNat ≤ 57 then some (c.toNat - 48)
    else if 97 ≤ c.toNat ∧ c.toNat ≤ 122 then some (c.toNat - 87)
    else if 65 ≤ c.toNat ∧ c.toNat ≤ 90 then some (c.toNat - 55)
    else none
  match v with
  | some d => if d < base then some d else none
  | none => none

/-- Accumulate a non-empty digit string in the given base. -/
def digitsToNat (base : ℕ) (l : List Char) : Option ℕ :=
  match l with
  | [] => none
  | _ :: _ =>
    l.foldl
      (fun acc c =>
        match acc, digitVal base c with
        | some a, some d => some (a * base + d)
        | _, _ => none)
      (some 0)

/-- Drop the optional base marker Python `int(s, base)` accepts
(`0x`/`0X` for 16, `0b`/`0B` for 2, `0o`/`0O` for 8). -/
def dropBaseMark (base : ℕ) (l : List Char) : List Char :=
  match l with
  | a :: c :: rest =>
    if a = '0' ∧ ((base = 16 ∧ (c = 'x' ∨ c = 'X')) ∨ (base = 2 ∧ (c = 'b' ∨ c = 'B'))
        ∨ (base = 8 ∧ (c = 'o' ∨ c = 'O'))) then rest
    else a :: c :: rest
  | _ => l

/-- Python `int(s, base)` on a character list: optional surrounding
whitespace, optional sign, optional base marker, then digits. -/
def pyIntList (base : ℕ) (l0 : List Char) : Option ℤ :=
  let l1 := stripList l0
  if listStartsWith l1 ['-'] then
    (digitsToNat base (dropBaseMark base l1.tail)).map (fun n => -(n : ℤ))
  else if listStartsWith l1 ['+'] then
    (digitsToNat base (dropBaseMark base l1.tail)).map (fun n => (n : ℤ))
  else
    (digitsToNat base (dropBaseMark base l1)).map (fun n => (n : ℤ))

/-! Error model (`errors.py`).  An `AssemblerError` stores its message and
the optional line information; Python bakes the line information into the
displayed message in `__init__`, which `renderError` reproduces.
`ValueError` (raised by `parse_register`) is included as a kind of its
own so that the `except (ValueError, EncodingError)` handler in
`Assembler._encode_instruction` can be modelled. -/

inductive ErrKind where
  | parseErr
  | encodingErr
  | symbolErr
  | valueErr
deriving DecidableEq

structure AsmError where
  kind : ErrKind
  msg : String
  lineNum : Option ℕ := none
  lineText : Option String := none
deriving DecidableEq

/-- The message Python `str(e)` would show for an `AssemblerError`. -/
def renderError (e : AsmError) : String :=
  match e.lineNum with
  | none => e.msg
  | some n =>
    let base := "Line " ++ natStr n ++ ": " ++ e.msg
    match e.lineText with
    | some t => if t = "" then base else base ++ "\n  " ++ t
    | none => base

def mkParseError (m : String) : AsmError := ⟨.parseErr, m, none, none⟩

def mkValueError (m : String) : AsmError := ⟨.valueErr, m, none, none⟩

def mkEncodingError (m : String) : AsmError := ⟨.encodingErr, m, none, none⟩

/-- Error-propagating sequencing, the model of Python exception flow
(written as an explicit match rather than monadic bind). -/
def andThen {α β : Type} (x : Except AsmError α) (f : α → Except AsmError β) :
    Except AsmError β :=
  match x with
  | .error e => .error e
  | .ok a => f a

instance {ε α : Type} [DecidableEq ε] [DecidableEq α] : DecidableEq (Except ε α) :=
  fun a b =>
    match a, b with
    | .ok x, .ok y =>
      if h : x = y then .isTrue (by rw [h]) else .isFalse (by intro hh; cases hh; exact h rfl)
    | .error e, .error f =>
      if h : e = f then .isTrue (by rw [h]) else .isFalse (by intro hh; cases hh; exact h rfl)
    | .ok _, .error _ => .isFalse (by intro hh; cases hh)
    | .error _, .ok _ => .isFalse (by intro hh; cases hh)

/-! Immediate literal parsing (`parser.py`, `parse_immediate`). -/

/-- Parse an immediate value from a string.  Mirrors `parse_immediate`:
strip, check emptiness, strip one leading minus sign, dispatch on the
(lower-cased) `0x`/`0b`/`0o` marker, then call Python `int`. -/
def parse_immediate (s : String) : Except AsmError ℤ :=
  let v := stripList s.data
  match v with
  | [] => .error (mkParseError "Empty immediate value")
  | _ =>
    let negative := listStartsWith v ['-']
    let v2 := if negative then stripList (v.drop 1) else v
    let low := v2.map Char.toLower
    let res : Option ℤ :=
      if listStartsWith low ['0', 'x'] then pyIntList 16 v2
      else if listStartsWith low ['0', 'b'] then pyIntList 2 v2
      else if listStartsWith low ['0', 'o'] then pyIntList 8 v2
      else pyIntList 10 v2
    match res with
    | some r => .ok (if negative then -r else r)
    | none => .error (mkParseError ("Invalid immediate value: " ++ String.mk v2))

/-! Register names (`registers.py`). -/

/-- ABI register names indexed by register number, in source order. -/
def REG_ABI_NAMES : List (String × ℕ) :=
  [("zero", 0), ("ra", 1), ("sp", 2), ("gp", 3), ("tp", 4),
   ("t0", 5), ("t1", 6), ("t2", 7), ("s0", 8), ("s1", 9),
   ("a0", 10), ("a1", 11), ("a2", 12), ("a3", 13), ("a4", 14),
   ("a5", 15), ("a6", 16), ("a7", 17), ("s2", 18), ("s3", 19),
   ("s4", 20), ("s5", 21), ("s6", 22), ("s7", 23), ("s8", 24),
   ("s9", 25), ("s10", 26), ("s11", 27), ("t3", 28), ("t4", 29),
   ("t5", 30), ("t6", 31)]

/-- Name-to-number register map: `x0`..`x31`, the ABI names, and the
alias `fp = 8`, in the insertion order of the source. -/
def REGISTER_MAP : List (String × ℕ) :=
  ((List.range 32).map (fun i => ("x" ++ natStr i, i)))
    ++ REG_ABI_NAMES ++ [("fp", 8)]

/-- Parse a register name (`parse_register`); raises `ValueError` on an
unknown name.  Python computes `name.lower().strip()`. -/
def parse_register (name : String) : Except AsmError ℕ :=
  let n := pyStrip (pyLower name)
  match REGISTER_MAP.lookup n with
  | some v => .ok v
  | none => .error (mkValueError ("Invalid register name: " ++ name))

/-- Check whether a string names a register (`is_valid_register`). -/
def is_valid_register (name : String) : Bool :=
  (REGISTER_MAP.lookup (pyStrip (pyLower name))).isSome

/-! Instruction catalog (`instructions.py`). -/

inductive InstructionFormat where
  | R
  | I
  | S
  | B
  | U
  | J
deriving DecidableEq

/-- An instruction descriptor.  `funct3`/`funct7` are `none` where the
Python dataclass leaves them `None`. -/
structure Instruction where
  opcode : ℕ
  format : InstructionFormat
  funct3 : Option ℕ := none
  funct7 : Option ℕ := none
deriving DecidableEq

/-- The RV32I catalog, entry for entry as in `INSTRUCTIONS`. -/
def INSTRUCTIONS : List (String × Instruction) :=
  [("add", ⟨0x33, .R, some 0b000, some 0x00⟩),
   ("sub", ⟨0x33, .R, some 0b000, some 0x20⟩),
   ("sll", ⟨0x33, .R, some 0b001, some 0x00⟩),
   ("slt", ⟨0x33, .R, some 0b010, some 0x00⟩),
   ("sltu", ⟨0x33, .R, some 0b011, some 0x00⟩),
   ("xor", ⟨0x33, .R, some 0b100, some 0x00⟩),
   ("srl", ⟨0x33, .R, some 0b101, some 0x00⟩),
   ("sra", ⟨0x33, .R, some 0b101, some 0x20⟩),
   ("or", ⟨0x33, .R, some 0b110, some 0x00⟩),
   ("and", ⟨0x33, .R, some 0b111, some 0x00⟩),
   ("addi", ⟨0x13, .I, some 0b000, none⟩),
   ("slti", ⟨0x13, .I, some 0b010, none⟩),
   ("sltiu", ⟨0x13, .I, some 0b011, none⟩),
   ("xori", ⟨0x13, .I, some 0b100, none⟩),
   ("ori", ⟨0x13, .I, some 0b110, none⟩),
   ("andi", ⟨0x13, .I, some 0b111, none⟩),
   ("slli", ⟨0x13, .I, some 0b001, some 0x00⟩),
   ("srli", ⟨0x13, .I, some 0b101, some 0x00⟩),
   ("srai", ⟨0x13, .I, some 0b101, some 0x20⟩),
   ("lb", ⟨0x03, .I, some 0b000, none⟩),
   ("lh", ⟨0x03, .I, some 0b001, none⟩),
   ("lw", ⟨0x03, .I, some 0b010, none⟩),
   ("lbu", ⟨0x03, .I, some 0b100, none⟩),
   ("lhu", ⟨0x03, .I, some 0b101, none⟩),
   ("sb", ⟨0x23, .S, some 0b000, none⟩),
   ("sh", ⟨0x23, .S, some 0b001, none⟩),
   ("sw", ⟨0x23, .S, some 0b010, none⟩),
   ("beq", ⟨0x63, .B, some 0b000, none⟩),
   ("bne", ⟨0x63, .B, some 0b001, none⟩),
   ("blt", ⟨0x63, .B, some 0b100, none⟩),
   ("bge", ⟨0x63, .B, some 0b101, none⟩),
   ("bltu", ⟨0x63, .B, some 0b110, none⟩),
   ("bgeu", ⟨0x63, .B, some 0b111, none⟩),
   ("jal", ⟨0x6F, .J, none, none⟩),
   ("jalr", ⟨0x67, .I, some 0b000, none⟩),
   ("lui", ⟨0x37, .U, none, none⟩),
   ("auipc", ⟨0x17, .U, none, none⟩),
   ("ecall", ⟨0x73, .I, some 0b000, none⟩),
   ("ebreak", ⟨0x73, .I, some 0b000, none⟩),
   ("fence", ⟨0x0F, .I, some 0b000, none⟩)]

/-- Immediates of the system instructions (`SYSTEM_IMM`). -/
def SYSTEM_IMM : List (String × ℕ) := [("ecall", 0x000), ("ebreak", 0x001)]

/-- Look up an instruction by (case-insensitive) mnemonic
(`get_instruction`). -/
def get_instruction (mnemonic : String) : Option Instruction :=
  INSTRUCTIONS.lookup (pyLower mnemonic)

/-- Check whether a mnemonic is a supported instruction
(`is_valid_instruction`). -/
def is_valid_instruction (mnemonic : String) : Bool :=
  (INSTRUCTIONS.lookup (pyLower mnemonic)).isSome

/-! Pseudo-instruction expansion (`pseudo.py`).  An expanded instruction
is a pair of a real mnemonic and its operand strings. -/

def ExpandedInstruction := String × List String

/-- Expand `li rd, imm` (`expand_li`).  One `addi` when the immediate is
in 12-bit signed range; otherwise `lui` plus, only when the computed
lower part is non-zero, an `addi`. -/
def expand_li (operands : List String) : Except AsmError (List (String × List String)) :=
  match operands with
  | [rd, immS] =>
    match parse_immediate immS with
    | .error e => .error e
    | .ok imm =>
      if -2048 ≤ imm ∧ imm ≤ 2047 then
        .ok [("addi", [rd, "x0", intStr imm])]
      else
        -- Python: upper = (imm + 0x800) >> 12; lower = imm - (upper << 12);
        -- upper = upper & 0xFFFFF  (mask applied after lower is computed)
        let upper0 : ℤ := (imm + 0x800) / 4096
        let lower : ℤ := imm - upper0 * 4096
        let upper : ℤ := upper0 % 0x100000
        let result : List (String × List String) := [("lui", [rd, intStr upper])]
        .ok (if lower ≠ 0 then result ++ [("addi", [rd, rd, intStr lower])] else result)
  | _ =>
    .error (mkParseError ("LI requires 2 operands, got " ++ natStr operands.length))

/-- Pseudo expansions that take exactly two operands and substitute them
into a fixed template; covers `mv, not, neg, beqz, bnez, blez, bgez,
bltz, bgtz, seqz, snez, sltz, sgtz` from the source, each of which
checks the operand count and returns one real instruction. -/
def expandTwoOperand (pseudoName : String) (template : String → String → String × List String)
    (operands : List String) : Except AsmError (List (String × List String)) :=
  match operands with
  | [a, b] => .ok [template a b]
  | _ =>
    .error (mkParseError (pseudoName ++ " requires 2 operands, got " ++ natStr operands.length))

/-- Expand a pseudo-instruction (`expand_pseudo` dispatching through
`PSEUDO_INSTRUCTIONS`); mirrors every expansion function in
`pseudo.py`. -/
def expand_pseudo (mnemonic : String) (operands : List String) :
    Except AsmError (List (String × List String)) :=
  match pyLower mnemonic with
  | "li" => expand_li operands
  | "mv" => expandTwoOperand "MV" (fun rd rs => ("addi", [rd, rs, "0"])) operands
  | "not" => expandTwoOperand "NOT" (fun rd rs => ("xori", [rd, rs, "-1"])) operands
  | "neg" => expandTwoOperand "NEG" (fun rd rs => ("sub", [rd, "x0", rs])) operands
  | "nop" =>
    match operands with
    | [] => .ok [("addi", ["x0", "x0", "0"])]
    | _ => .error (mkParseError ("NOP takes no operands, got " ++ natStr operands.length))
  | "j" =>
    match operands with
    | [off] => .ok [("jal", ["x0", off])]
    | _ => .error (mkParseError ("J requires 1 operand, got " ++ natStr operands.length))
  | "jr" =>
    match operands with
    | [rs] => .ok [("jalr", ["x0", rs, "0"])]
    | _ => .error (mkParseError ("JR requires 1 operand, got " ++ natStr operands.length))
  | "ret" =>
    match operands with
    | [] => .ok [("jalr", ["x0", "ra", "0"])]
    | _ => .error (mkParseError ("RET takes no operands, got " ++ natStr operands.length))
  | "call" =>
    match operands with
    | [off] => .ok [("jal", ["ra", off])]
    | _ => .error (mkParseError ("CALL requires 1 operand, got " ++ natStr operands.length))
  | "beqz" => expandTwoOperand "BEQZ" (fun rs off => ("beq", [rs, "x0", off])) operands
  | "bnez" => expandTwoOperand "BNEZ" (fun rs off => ("bne", [rs, "x0", off])) operands
  | "blez" => expandTwoOperand "BLEZ" (fun rs off => ("bge", ["x0", rs, off])) operands
  | "bgez" => expandTwoOperand "BGEZ" (fun rs off => ("bge", [rs, "x0", off])) operands
  | "bltz" => expandTwoOperand "BLTZ" (fun rs off => ("blt", [rs, "x0", off])) operands
  | "bgtz" => expandTwoOperand "BGTZ" (fun rs off => ("blt", ["x0", rs, off])) operands
  | "seqz" => expandTwoOperand "SEQZ" (fun rd rs => ("sltiu", [rd, rs, "1"])) operands
  | "snez" => expandTwoOperand "SNEZ" (fun rd rs => ("sltu", [rd, "x0", rs])) operands
  | "sltz" => expandTwoOperand "SLTZ" (fun rd rs => ("slt", [rd, rs, "x0"])) operands
  | "sgtz" => expandTwoOperand "SGTZ" (fun rd rs => ("slt", [rd, "x0", rs])) operands
  | other => .error (mkParseError ("Unknown pseudo-instruction: " ++ other))

/-- Names of the pseudo-instructions (`PSEUDO_INSTRUCTIONS` keys). -/
def PSEUDO_NAMES : List String :=
  ["li", "mv", "not", "neg", "nop", "j", "jr", "ret", "call",
   "beqz", "bnez", "blez", "bgez", "bltz", "bgtz", "seqz", "snez", "sltz", "sgtz"]

/-- Check whether a mnemonic is a pseudo-instruction
(`is_pseudo_instruction`). -/
def is_pseudo_instruction (mnemonic : String) : Bool :=
  PSEUDO_NAMES.contains (pyLower mnemonic)

/-- Number of real instructions a pseudo occupies, used by Pass 1
(`get_pseudo_instruction_count`).  For `li` with at least two operands it
parses the immediate and answers 1 inside the 12-bit signed range and 2
outside it, with 2 as the fallback when parsing fails; everything else
answers 1. -/
def get_pseudo_instruction_count (mnemonic : String) (operands : List String) : ℕ :=
  let m := pyLower mnemonic
  if ¬ PSEUDO_NAMES.contains m then 1
  else if m = "li" then
    match operands with
    | _ :: immS :: _ =>
      match parse_immediate immS with
      | .ok imm => if -2048 ≤ imm ∧ imm ≤ 2047 then 1 else 2
      | .error _ => 2
    | _ => 2
  else 1

/-! Encoder (`encoder.py`). -/

/-- Range check for immediates (`check_immediate_range`). -/
def check_immediate_range (value : ℤ) (bits : ℕ) (signed : Bool) (name : String) :
    Except AsmError Unit :=
  let minVal : ℤ := if signed then -(2 ^ (bits - 1)) else 0
  let maxVal : ℤ := if signed then 2 ^ (bits - 1) - 1 else 2 ^ bits - 1
  if minVal ≤ value ∧ value ≤ maxVal then .ok ()
  else
    .error (mkEncodingError
      (name ++ " value " ++ intStr value ++ " out of range [" ++ intStr minVal
        ++ ", " ++ intStr maxVal ++ "] for " ++ natStr bits ++ "-bit field"))

/-- Low `k` bits of the two's-complement representation of an integer:
the model of Python `x & (2^k - 1)` (see header comment). -/
def lowBits (x : ℤ) (k : ℕ) : ℕ := (x % 2 ^ k).toNat

/-- Encode an R-type instruction (`encode_r_type`).  The source reads
`instr.funct3`/`instr.funct7` directly; they are always set for R-type
catalog entries (Python would raise a `TypeError` on `None`), modelled
with `Option.getD 0`. -/
def encode_r_type (instr : Instruction) (rd rs1 rs2 : ℕ) : ℕ :=
  (instr.opcode &&& 0x7F)
    ||| (rd &&& 0x1F) <<< 7
    ||| ((instr.funct3.getD 0) &&& 0x7) <<< 12
    ||| (rs1 &&& 0x1F) <<< 15
    ||| (rs2 &&& 0x1F) <<< 20
    ||| ((instr.funct7.getD 0) &&& 0x7F) <<< 25

/-- Encode an I-type instruction (`encode_i_type`): system-immediate
override for `ecall`/`ebreak`, the shift-immediate special case for
`slli`/`srli`/`srai`, and the plain 12-bit signed immediate otherwise. -/
def encode_i_type (instr : Instruction) (rd rs1 : ℕ) (imm : ℤ) (mnemonic : String) :
    Except AsmError ℕ :=
  let lowM := pyLower mnemonic
  let (rd, rs1, imm) :=
    match SYSTEM_IMM.lookup lowM with
    | some sysImm => ((0 : ℕ), (0 : ℕ), (sysImm : ℤ))
    | none => (rd, rs1, imm)
  let immRes : Except AsmError ℕ :=
    if instr.funct7.isSome ∧ (lowM = "slli" ∨ lowM = "srli" ∨ lowM = "srai") then
      match check_immediate_range imm 5 false "shift amount" with
      | .error e => .error e
      | .ok _ => .ok (((instr.funct7.getD 0) <<< 5) ||| (lowBits imm 5))
    else
      match check_immediate_range imm 12 true "I-type immediate" with
      | .error e => .error e
      | .ok _ => .ok (lowBits imm 12)
  match immRes with
  | .error e => .error e
  | .ok immN =>
    .ok ((instr.opcode &&& 0x7F)
      ||| (rd &&& 0x1F) <<< 7
      ||| ((instr.funct3.getD 0) &&& 0x7) <<< 12
      ||| (rs1 &&& 0x1F) <<< 15
      ||| (immN &&& 0xFFF) <<< 20)

/-- Encode an S-type instruction (`encode_s_type`). -/
def encode_s_type (instr : Instruction) (rs1 rs2 : ℕ) (imm : ℤ) : Except AsmError ℕ :=
  match check_immediate_range imm 12 true "S-type immediate" with
  | .error e => .error e
  | .ok _ =>
    let immN := lowBits imm 12
    .ok ((instr.opcode &&& 0x7F)
      ||| (immN &&& 0x1F) <<< 7
      ||| ((instr.funct3.getD 0) &&& 0x7) <<< 12
      ||| (rs1 &&& 0x1F) <<< 15
      ||| (rs2 &&& 0x1F) <<< 20
      ||| ((immN >>> 5) &&& 0x7F) <<< 25)

/-- Encode a B-type instruction (`encode_b_type`): the offset must be
even and in 13-bit signed range; bit 0 is cleared by the `0x1FFE` mask
and the remaining bits are scattered per the RISC-V B-format. -/
def encode_b_type (instr : Instruction) (rs1 rs2 : ℕ) (imm : ℤ) : Except AsmError ℕ :=
  if imm % 2 ≠ 0 then
    .error (mkEncodingError ("B-type branch offset must be even, got " ++ intStr imm))
  else
    match check_immediate_range imm 13 true "B-type offset" with
    | .error e => .error e
    | .ok _ =>
      -- Python: imm = imm & 0x1FFE
      let immN : ℕ := (lowBits imm 13) &&& 0x1FFE
      .ok ((instr.opcode &&& 0x7F)
        ||| ((immN >>> 11) &&& 0x1) <<< 7
        ||| ((immN >>> 1) &&& 0xF) <<< 8
        ||| ((instr.funct3.getD 0) &&& 0x7) <<< 12
        ||| (rs1 &&& 0x1F) <<< 15
        ||| (rs2 &&& 0x1F) <<< 20
        ||| ((immN >>> 5) &&& 0x3F) <<< 25
        ||| ((immN >>> 12) &&& 0x1) <<< 31)

/-- Encode a U-type instruction (`encode_u_type`): negative immediates
are range-checked as 20-bit signed and masked, non-negative ones as
20-bit unsigned. -/
def encode_u_type (instr : Instruction) (rd : ℕ) (imm : ℤ) : Except AsmError ℕ :=
  match (if imm < 0 then check_immediate_range imm 20 true "U-type immediate"
         else check_immediate_range imm 20 false "U-type immediate") with
  | .error e => .error e
  | .ok _ =>
    -- both the negative-branch mask and the final `imm & 0xFFFFF` reduce to
    -- the low 20 two's-complement bits
    .ok ((instr.opcode &&& 0x7F)
      ||| (rd &&& 0x1F) <<< 7
      ||| ((lowBits imm 20) &&& 0xFFFFF) <<< 12)

/-- Encode a J-type instruction (`encode_j_type`): the offset must be
even and in 21-bit signed range; a negative offset is masked to its low
21 bits (a non-negative in-range offset is at most `2^20 - 1`, so the
unconditional `lowBits imm 21` matches taking the Python branch). -/
def encode_j_type (instr : Instruction) (rd : ℕ) (imm : ℤ) : Except AsmError ℕ :=
  if imm % 2 ≠ 0 then
    .error (mkEncodingError ("J-type jump offset must be even, got " ++ intStr imm))
  else
    match check_immediate_range imm 21 true "J-type offset" with
    | .error e => .error e
    | .ok _ =>
      let immN : ℕ := lowBits imm 21
      .ok ((instr.opcode &&& 0x7F)
        ||| (rd &&& 0x1F) <<< 7
        ||| ((immN >>> 12) &&& 0xFF) <<< 12
        ||| ((immN >>> 11) &&& 0x1) <<< 20
        ||| ((immN >>> 1) &&& 0x3FF) <<< 21
        ||| ((immN >>> 20) &&& 0x1) <<< 31)

/-- Encode an instruction by format dispatch (`encode_instruction`). -/
def encode_instruction (instr : Instruction) (mnemonic : String)
    (rd rs1 rs2 : ℕ) (imm : ℤ) : Except AsmError ℕ :=
  match instr.format with
  | .R => .ok (encode_r_type instr rd rs1 rs2)
  | .I => encode_i_type instr rd rs1 imm mnemonic
  | .S => encode_s_type instr rs1 rs2 imm
  | .B => encode_b_type instr rs1 rs2 imm
  | .U => encode_u_type instr rd imm
  | .J => encode_j_type instr rd imm

/-! Comment stripping and memory operands (`parser.py`). -/

/-- Index of the first occurrence of `pat` in `l` (Python `str.find`,
with `none` for Python -1). -/
def findSub (l pat : List Char) : Option ℕ :=
  match l with
  | [] => if listStartsWith l pat then some 0 else none
  | _ :: t =>
    if listStartsWith l pat then some 0
    else (findSub t pat).map (· + 1)

/-- The `comment_pos` selection of `strip_comments`: take the position
of whichever marker was found, the minimum when both were. -/
def combineFind : Option ℕ → Option ℕ → Option ℕ
  | some h, some d => some (min h d)
  | some h, none => some h
  | none, some d => some d
  | none, none => none

/-- Remove comments from a line (`strip_comments`): find the first `#`
and the first `//`, truncate at whichever comes first. -/
def strip_comments (s : String) : String :=
  let l := s.data
  let hashPos := findSub l ['#']
  let slashPos := findSub l ['/', '/']
  match combineFind hashPos slashPos with
  | some p => String.mk (l.take p)
  | none => s

/-- Python `\w` (word character); the inputs of this repository are
ASCII. -/
def isWordChar (c : Char) : Bool :=
  c.isAlpha || c.isDigit || c = '_'

/-- Parse a memory operand of the shape `offset(register)`
(`parse_memory_operand`).  The source matches
`^\s*(-?\w*)\s*\(\s*(\w+)\s*\)\s*$`; since the character classes
involved are pairwise disjoint and none contains the parenthesis
literals, the greedy left-to-right scan below is equivalent to that
regex.  An empty or lone `-` offset group is read as 0; the register
group is then validated. -/
def parse_memory_operand (operand : String) : Except AsmError (ℤ × String) :=
  let invalid : Except AsmError (ℤ × String) :=
    .error (mkParseError ("Invalid memory operand syntax: " ++ operand))
  let l1 := operand.data.dropWhile isPySpace
  let sign := listStartsWith l1 ['-']
  let l2 := if sign then l1.tail else l1
  let offWord := l2.takeWhile isWordChar
  let l3 := (l2.dropWhile isWordChar).dropWhile isPySpace
  if listStartsWith l3 ['('] then
    let l4 := l3.tail
    let l5 := l4.dropWhile isPySpace
    let regWord := l5.takeWhile isWordChar
    let l6 := (l5.dropWhile isWordChar).dropWhile isPySpace
    if regWord ≠ [] ∧ listStartsWith l6 [')'] ∧ l6.tail.dropWhile isPySpace = [] then
      -- group(1).strip() / group(2).strip(): the groups contain no
      -- whitespace, so the strip is the identity; mirrored anyway
      let offsetStr := stripList ((if sign then ['-'] else []) ++ offWord)
      let regStr := String.mk (stripList regWord)
      match (if offsetStr = [] ∨ offsetStr = ['-'] then .ok 0
             else parse_immediate (String.mk offsetStr)) with
      | .error e => .error e
      | .ok offset =>
        if is_valid_register regStr then .ok (offset, regStr)
        else .error (mkParseError ("Invalid register in memory operand: " ++ regStr))
    else invalid
  else invalid

/-! The two-pass driver (`assembler.py`). -/

/-- A parsed source line (`parser.ParsedLine`). -/
structure ParsedLine where
  line_num : ℕ
  label : Option String := none
  mnemonic : Option String := none
  operands : List String := []
  original : String := ""
  is_directive : Bool := false
deriving DecidableEq

/-- Resolve an immediate value or label reference
(`Assembler._resolve_immediate`): a name bound in the symbol table
resolves to its absolute address, anything else is parsed as an
immediate literal, with line information attached to a parse failure. -/
def asm_resolve_immediate (symbols : List (String × ℕ)) (value : String)
    (lineNum : ℕ) (lineText : String) : Except AsmError ℤ :=
  let v := pyStrip value
  match symbols.lookup v with
  | some a => .ok (a : ℤ)
  | none =>
    match parse_immediate v with
    | .ok i => .ok i
    | .error e => .error ⟨.parseErr, renderError e, some lineNum, some lineText⟩

/-- Resolve the operand strings of one real instruction into
`(rd, rs1, rs2, imm)` (`Assembler._parse_operands`), dispatching on the
descriptor format with the special cases of the source: `ecall`,
`ebreak` and `fence` return all zeroes at once; loads and stores take a
memory operand; `jalr` accepts both syntaxes; B-type and J-type targets
that name a symbol resolve PC-relative. -/
def asm_parse_operands (symbols : List (String × ℕ)) (currentAddress : ℕ)
    (instr : Instruction) (mnemonic : String) (operands : List String)
    (lineNum : ℕ) (lineText : String) : Except AsmError (ℕ × ℕ × ℕ × ℤ) :=
  if mnemonic = "ecall" ∨ mnemonic = "ebreak" then .ok (0, 0, 0, 0)
  else if mnemonic = "fence" then .ok (0, 0, 0, 0)
  else
    match instr.format with
    | .R =>
      match operands with
      | [o0, o1, o2] =>
        andThen (parse_register o0) fun rd =>
        andThen (parse_register o1) fun rs1 =>
        andThen (parse_register o2) fun rs2 =>
        .ok (rd, rs1, rs2, 0)
      | _ =>
        .error ⟨.parseErr, mnemonic ++ " requires 3 operands (rd, rs1, rs2), got "
          ++ natStr operands.length, some lineNum, some lineText⟩
    | .I =>
      if mnemonic = "lb" ∨ mnemonic = "lh" ∨ mnemonic = "lw"
          ∨ mnemonic = "lbu" ∨ mnemonic = "lhu" then
        match operands with
        | [o0, o1] =>
          andThen (parse_register o0) fun rd =>
          andThen (parse_memory_operand o1) fun p =>
          andThen (parse_register p.2) fun rs1 =>
          .ok (rd, rs1, 0, p.1)
        | _ =>
          .error ⟨.parseErr, mnemonic ++ " requires 2 operands (rd, offset(rs1)), got "
            ++ natStr operands.length, some lineNum, some lineText⟩
      else if mnemonic = "jalr" then
        match operands with
        | [o0, o1, o2] =>
          andThen (parse_register o0) fun rd =>
          andThen (parse_register o1) fun rs1 =>
          andThen (asm_resolve_immediate symbols o2 lineNum lineText) fun imm =>
          .ok (rd, rs1, 0, imm)
        | [o0, o1] =>
          andThen (parse_register o0) fun rd =>
          andThen (parse_memory_operand o1) fun p =>
          andThen (parse_register p.2) fun rs1 =>
          .ok (rd, rs1, 0, p.1)
        | _ =>
          .error ⟨.parseErr, "jalr requires 2 or 3 operands, got "
            ++ natStr operands.length, some lineNum, some lineText⟩
      else
        match operands with
        | [o0, o1, o2] =>
          andThen (parse_register o0) fun rd =>
          andThen (parse_register o1) fun rs1 =>
          andThen (asm_resolve_immediate symbols o2 lineNum lineText) fun imm =>
          .ok (rd, rs1, 0, imm)
        | _ =>
          .error ⟨.parseErr, mnemonic ++ " requires 3 operands (rd, rs1, imm), got "
            ++ natStr operands.length, some lineNum, some lineText⟩
    | .S =>
      match operands with
      | [o0, o1] =>
        andThen (parse_register o0) fun rs2 =>
        andThen (parse_memory_operand o1) fun p =>
        andThen (parse_register p.2) fun rs1 =>
        .ok (0, rs1, rs2, p.1)
      | _ =>
        .error ⟨.parseErr, mnemonic ++ " requires 2 operands (rs2, offset(rs1)), got "
          ++ natStr operands.length, some lineNum, some lineText⟩
    | .B =>
      match operands with
      | [o0, o1, o2] =>
        andThen (parse_register o0) fun rs1 =>
        andThen (parse_register o1) fun rs2 =>
        (let target := pyStrip o2
         match symbols.lookup target with
         | some targetAddr => .ok (0, rs1, rs2, (targetAddr : ℤ) - (currentAddress : ℤ))
         | none =>
           andThen (asm_resolve_immediate symbols target lineNum lineText) fun imm =>
           .ok (0, rs1, rs2, imm))
      | _ =>
        .error ⟨.parseErr, mnemonic ++ " requires 3 operands (rs1, rs2, offset), got "
          ++ natStr operands.length, some lineNum, some lineText⟩
    | .U =>
      match operands with
      | [o0, o1] =>
        andThen (parse_register o0) fun rd =>
        andThen (asm_resolve_immediate symbols o1 lineNum lineText) fun imm =>
        .ok (rd, 0, 0, imm)
      | _ =>
        .error ⟨.parseErr, mnemonic ++ " requires 2 operands (rd, imm), got "
          ++ natStr operands.length, some lineNum, some lineText⟩
    | .J =>
      match operands with
      | [o0, o1] =>
        andThen (parse_register o0) fun rd =>
        (let target := pyStrip o1
         match symbols.lookup target with
         | some targetAddr => .ok (rd, 0, 0, (targetAddr : ℤ) - (currentAddress : ℤ))
         | none =>
           andThen (asm_resolve_immediate symbols target lineNum lineText) fun imm =>
           .ok (rd, 0, 0, imm))
      | _ =>
        .error ⟨.parseErr, mnemonic ++ " requires 2 operands (rd, offset), got "
          ++ natStr operands.length, some lineNum, some lineText⟩

/-- Encode a single instruction during Pass 2
(`Assembler._encode_instruction`): catalog lookup, operand resolution,
encoding; a `ValueError` or `EncodingError` escaping the body is
re-raised as an `EncodingError` that carries the line information. -/
def asm_encode_instruction (symbols : List (String × ℕ)) (currentAddress : ℕ)
    (mnemonic : String) (operands : List String) (lineNum : ℕ) (lineText : String) :
    Except AsmError ℕ :=
  match get_instruction mnemonic with
  | none => .error ⟨.parseErr, "Unknown instruction: " ++ mnemonic, some lineNum, some lineText⟩
  | some instr =>
    match (andThen
        (asm_parse_operands symbols currentAddress instr mnemonic operands lineNum lineText)
        fun t => encode_instruction instr mnemonic t.1 t.2.1 t.2.2.1 t.2.2.2) with
    | .ok w => .ok w
    | .error e =>
      match e.kind with
      | .valueErr | .encodingErr =>
        .error ⟨.encodingErr, renderError e, some lineNum, some lineText⟩
      | _ => .error e

/-- The Pass 1 loop (`Assembler._pass1`): bind labels to the current
address (duplicate labels are a `SymbolError` with line information),
then advance the address by 4 per real instruction the line occupies. -/
def pass1Go (lines : List ParsedLine) (symbols : List (String × ℕ)) (addr : ℕ) :
    Except AsmError (List (String × ℕ) × ℕ) :=
  match lines with
  | [] => .ok (symbols, addr)
  | line :: rest =>
    match (match line.label with
      | some lab =>
        if (symbols.lookup lab).isSome then
          (.error ⟨.symbolErr, "Duplicate label: " ++ lab,
            some line.line_num, some line.original⟩ : Except AsmError (List (String × ℕ)))
        else .ok (symbols ++ [(lab, addr)])
      | none => .ok symbols) with
    | .error e => .error e
    | .ok symbols2 =>
      if line.mnemonic.isNone ∨ line.is_directive then pass1Go rest symbols2 addr
      else
        let m := pyLower (line.mnemonic.getD "")
        let cnt :=
          if is_pseudo_instruction m then get_pseudo_instruction_count m line.operands else 1
        pass1Go rest symbols2 (addr + cnt * 4)

/-- Pass 1 from the initial state. -/
def pass1 (lines : List ParsedLine) : Except AsmError (List (String × ℕ) × ℕ) :=
  pass1Go lines [] 0

/-- Emit the expansion of one pseudo-instruction: encode each real
instruction at consecutive addresses, recording one source-map entry
`(address, original text, line number)` per emitted word. -/
def emitExpanded (symbols : List (String × ℕ)) (exps : List (String × List String))
    (lineNum : ℕ) (orig : String) (addr : ℕ) :
    Except AsmError (List ℕ × List (ℕ × String × ℕ)) :=
  match exps with
  | [] => .ok ([], [])
  | (m, ops) :: rest =>
    andThen (asm_encode_instruction symbols addr m ops lineNum orig) fun w =>
    andThen (emitExpanded symbols rest lineNum orig (addr + 4)) fun r =>
    .ok (w :: r.1, (addr, orig, lineNum) :: r.2)

/-- The Pass 2 loop (`Assembler._pass2`): skip directives and empty
lines, expand pseudo-instructions, encode, and build the program image
and the source map in step, advancing the address by 4 per word. -/
def pass2Go (symbols : List (String × ℕ)) (lines : List ParsedLine) (addr : ℕ) :
    Except AsmError (List ℕ × List (ℕ × String × ℕ)) :=
  match lines with
  | [] => .ok ([], [])
  | line :: rest =>
    if line.mnemonic.isNone ∨ line.is_directive then pass2Go symbols rest addr
    else
      let m := pyLower (line.mnemonic.getD "")
      if is_pseudo_instruction m then
        andThen (expand_pseudo m line.operands) fun exps =>
        andThen (emitExpanded symbols exps line.line_num line.original addr) fun r1 =>
        andThen (pass2Go symbols rest (addr + 4 * exps.length)) fun r2 =>
        .ok (r1.1 ++ r2.1, r1.2 ++ r2.2)
      else
        andThen (asm_encode_instruction symbols addr m line.operands
          line.line_num line.original) fun w =>
        andThen (pass2Go symbols rest (addr + 4)) fun r2 =>
        .ok (w :: r2.1, (addr, line.original, line.line_num) :: r2.2)

/-- Pass 2 from the initial state. -/
def pass2 (symbols : List (String × ℕ)) (lines : List ParsedLine) :
    Except AsmError (List ℕ × List (ℕ × String × ℕ)) :=
  pass2Go symbols lines 0

/-- A whole assembly run over already-parsed lines
(`Assembler.assemble_string` after parsing): Pass 1 then Pass 2. -/
def assemble_lines (lines : List ParsedLine) :
    Except AsmError (List ℕ × List (ℕ × String × ℕ)) :=
  andThen (pass1 lines) fun r => pass2 r.1 lines

/-! Specification-side definitions.  The definitions below are written
from the words of the specification and of the claims, independently of
the code above, to state refinement/correctness theorems against. -/

/-- Modelled from the spec: the reference RV32 interpreter of the
`li` round-trip law — `lui` sets `rd` to `imm <<< 12`, `addi` adds the
sign-extended 12-bit immediate to `rs1`, all register arithmetic is
modulo `2^32`; an instruction whose immediate could not be encoded in
its field is rejected.  Operand strings are read with the register and
immediate syntax of the assembler. -/
def refStep (st : ℕ → ℕ) : String × List String → Except AsmError (ℕ → ℕ)
  | ("lui", [rdS, immS]) =>
    andThen (parse_register rdS) fun rd =>
    andThen (parse_immediate immS) fun imm =>
    if 0 ≤ imm ∧ imm < 2 ^ 20 then
      .ok (fun i => if i = rd then (imm.toNat <<< 12) % 2 ^ 32 else st i)
    else .error (mkEncodingError "lui immediate not encodable")
  | ("addi", [rdS, rsS, immS]) =>
    andThen (parse_register rdS) fun rd =>
    andThen (parse_register rsS) fun rs =>
    andThen (parse_immediate immS) fun imm =>
    if -2048 ≤ imm ∧ imm ≤ 2047 then
      .ok (fun i => if i = rd then (((st rs : ℤ) + imm) % 2 ^ 32).toNat else st i)
    else .error (mkEncodingError "addi immediate not encodable")
  | _ => .error (mkParseError "instruction not supported by the reference interpreter")

/-- Run the reference interpreter over an instruction sequence. -/
def refExec (prog : List (String × List String)) (st : ℕ → ℕ) :
    Except AsmError (ℕ → ℕ) :=
  match prog with
  | [] => .ok st
  | ins :: rest => andThen (refStep st ins) fun st2 => refExec rest st2

/-- The B-type word demanded by the claim, written as a plain sum of
fields: with `u` the 13 two's-complement bits of the offset, `u` bit 12
at word bit 31, bits 10:5 at 30:25, `rs2` at 24:20, `rs1` at 19:15,
`funct3` at 14:12, bits 4:1 at 11:8, bit 11 at word bit 7, opcode at
6:0. -/
def specBWord (opcode f3 rs1 rs2 : ℕ) (imm : ℤ) : ℕ :=
  let u := (imm % 2 ^ 13).toNat
  (u / 2 ^ 12 % 2) * 2 ^ 31 + (u / 2 ^ 5 % 2 ^ 6) * 2 ^ 25 + rs2 * 2 ^ 20
    + rs1 * 2 ^ 15 + f3 * 2 ^ 12 + (u / 2 % 2 ^ 4) * 2 ^ 8
    + (u / 2 ^ 11 % 2) * 2 ^ 7 + opcode

/-- The J-type word demanded by the claim: with `u` the 21
two's-complement bits of the offset, `u` bit 20 at word bit 31, bits
10:1 at 30:21, bit 11 at word bit 20, bits 19:12 at 19:12, `rd` at
11:7, opcode at 6:0. -/
def specJWord (opcode rd : ℕ) (imm : ℤ) : ℕ :=
  let u := (imm % 2 ^ 21).toNat
  (u / 2 ^ 20 % 2) * 2 ^ 31 + (u / 2 % 2 ^ 10) * 2 ^ 21 + (u / 2 ^ 11 % 2) * 2 ^ 20
    + (u / 2 ^ 12 % 2 ^ 8) * 2 ^ 12 + rd * 2 ^ 7 + opcode

/-- Position of the first comment marker in a line — the first position
where either `#` occurs or `//` begins — by a single left-to-right scan.
Spec-side counterpart of the find-then-minimum logic of
`strip_comments`. -/
def firstMarkerPos (l : List Char) : Option ℕ :=
  match l with
  | [] => none
  | c :: t =>
    if c = '#' ∨ listStartsWith (c :: t) ['/', '/'] then some 0
    else (firstMarkerPos t).map (· + 1)

/-- The kind of error a computation failed with, if it failed. -/
def errKind {α : Type} : Except AsmError α → Option ErrKind
  | .error e => some e.kind
  | .ok _ => none

/-! General-purpose lemmas. -/

theorem two_pow_mul_lor_eq_add (x k acc : ℕ) (h : acc < 2 ^ k) :
    (2 ^ k * x) ||| acc = 2 ^ k * x + acc := by
  have hsh : 2 ^ k * x = x <<< k := by rw [Nat.shiftLeft_eq]; ring
  apply Nat.eq_of_testBit_eq
  intro i
  rw [Nat.testBit_lor, Nat.testBit_mul_pow_two_add x h i]
  rcases Nat.lt_or_ge i k with hik | hik
  · rw [if_pos hik]
    have hs : (2 ^ k * x).testBit i = false := by
      rw [hsh, Nat.testBit_shiftLeft]
      simp [Nat.not_le.mpr hik]
    rw [hs]
    simp
  · rw [if_neg (Nat.not_lt.mpr hik)]
    have hy : acc.testBit i = false :=
      Nat.testBit_lt_two_pow (lt_of_lt_of_le h (Nat.pow_le_pow_right (by norm_num) hik))
    have hx : (2 ^ k * x).testBit i = x.testBit (i - k) := by
      rw [hsh, Nat.testBit_shiftLeft]
      simp [hik]
    rw [hy, hx]
    simp

/-- Disjoint bit-or is addition: with the accumulated low bits below
`2 ^ k`, or-ing in a field shifted up by `k` is the same as adding it. -/
theorem lor_shiftLeft_eq_add (acc x : ℕ) (k : ℕ) (h : acc < 2 ^ k) :
    acc ||| x <<< k = acc + x * 2 ^ k := by
  have hsh : x <<< k = 2 ^ k * x := by rw [Nat.shiftLeft_eq]; ring
  rw [Nat.lor_comm, hsh, two_pow_mul_lor_eq_add x k acc h]
  ring

theorem land_mask_eq_mod (x m k : ℕ) (hm : m = 2 ^ k - 1) : x &&& m = x % 2 ^ k := by
  rw [hm]
  exact Nat.and_pow_two_sub_one_eq_mod x k

/-- The `0x1FFE` mask of the B-type encoder is the identity on even
13-bit values. -/
theorem even_land_mask (u : ℕ) (hu : u < 8192) (he : u % 2 = 0) : u &&& 0x1FFE = u := by
  apply Nat.eq_of_testBit_eq
  intro i
  rw [Nat.testBit_land]
  rcases Nat.lt_or_ge i 13 with h13 | h13
  · interval_cases i <;> simp_all [Nat.testBit_to_div_mod] <;> omega
  · have hlt : u < 2 ^ i := lt_of_lt_of_le hu
      (le_trans (by norm_num : (8192 : ℕ) ≤ 2 ^ 13) (Nat.pow_le_pow_right (by norm_num) h13))
    rw [Nat.testBit_lt_two_pow hlt]
    simp

/-- Or-chain of the eight B-type fields rewritten as a plain sum. -/
theorem word8_or_to_add (a p7 p8 p12 p15 p20 p25 p31 : ℕ)
    (ha : a < 2 ^ 7) (h7 : p7 < 2) (h8 : p8 < 2 ^ 4) (h12 : p12 < 2 ^ 3)
    (h15 : p15 < 2 ^ 5) (h20 : p20 < 2 ^ 5) (h25 : p25 < 2 ^ 6) :
    a ||| p7 <<< 7 ||| p8 <<< 8 ||| p12 <<< 12 ||| p15 <<< 15 ||| p20 <<< 20
      ||| p25 <<< 25 ||| p31 <<< 31
    = a + p7 * 2 ^ 7 + p8 * 2 ^ 8 + p12 * 2 ^ 12 + p15 * 2 ^ 15 + p20 * 2 ^ 20
      + p25 * 2 ^ 25 + p31 * 2 ^ 31 := by
  rw [lor_shiftLeft_eq_add a p7 7 (by omega)]
  rw [lor_shiftLeft_eq_add _ p8 8 (by omega)]
  rw [lor_shiftLeft_eq_add _ p12 12 (by omega)]
  rw [lor_shiftLeft_eq_add _ p15 15 (by omega)]
  rw [lor_shiftLeft_eq_add _ p20 20 (by omega)]
  rw [lor_shiftLeft_eq_add _ p25 25 (by omega)]
  rw [lor_shiftLeft_eq_add _ p31 31 (by omega)]

/-- Or-chain of the six J-type fields rewritten as a plain sum. -/
theorem word6_or_to_add (a p7 p12 p20 p21 p31 : ℕ)
    (ha : a < 2 ^ 7) (h7 : p7 < 2 ^ 5) (h12 : p12 < 2 ^ 8) (h20 : p20 < 2)
    (h21 : p21 < 2 ^ 10) :
    a ||| p7 <<< 7 ||| p12 <<< 12 ||| p20 <<< 20 ||| p21 <<< 21 ||| p31 <<< 31
    = a + p7 * 2 ^ 7 + p12 * 2 ^ 12 + p20 * 2 ^ 20 + p21 * 2 ^ 21 + p31 * 2 ^ 31 := by
  rw [lor_shiftLeft_eq_add a p7 7 (by omega)]
  rw [lor_shiftLeft_eq_add _ p12 12 (by omega)]
  rw [lor_shiftLeft_eq_add _ p20 20 (by omega)]
  rw [lor_shiftLeft_eq_add _ p21 21 (by omega)]
  rw [lor_shiftLeft_eq_add _ p31 31 (by omega)]

/-- A word character is never Python whitespace. -/
theorem word_not_space (c : Char) (h : isWordChar c = true) : isPySpace c = false := by
  by_contra hs
  have hs2 : isPySpace c = true := by
    cases hval : isPySpace c
    · exact absurd hval hs
    · rfl
  unfold isPySpace at hs2
  simp only [Bool.or_eq_true, decide_eq_true_eq] at hs2
  rcases hs2 with ((((rfl | rfl) | rfl) | rfl) | rfl) | rfl <;> exact absurd h (by decide)

theorem dropWhile_eq_self_of_all_false {α : Type} (p : α → Bool) (l : List α)
    (h : ∀ a ∈ l, p a = false) : l.dropWhile p = l := by
  cases l with
  | nil => rfl
  | cons a t =>
    rw [List.dropWhile_cons, h a (by simp)]
    simp

theorem takeWhile_append_all {α : Type} (p : α → Bool) (l : List α) (c : α) (r : List α)
    (hl : ∀ a ∈ l, p a = true) (hc : p c = false) :
    (l ++ c :: r).takeWhile p = l := by
  induction l with
  | nil => simp [List.takeWhile_cons, hc]
  | cons a t ih =>
    have ha : p a = true := hl a (by simp)
    have ih2 := ih (fun x hx => hl x (by simp [hx]))
    simp [List.takeWhile_cons, ha, ih2]

theorem dropWhile_append_all {α : Type} (p : α → Bool) (l : List α) (c : α) (r : List α)
    (hl : ∀ a ∈ l, p a = true) (hc : p c = false) :
    (l ++ c :: r).dropWhile p = c :: r := by
  induction l with
  | nil => simp [List.dropWhile_cons, hc]
  | cons a t ih =>
    have ha : p a = true := hl a (by simp)
    have ih2 := ih (fun x hx => hl x (by simp [hx]))
    simp [List.dropWhile_cons, ha, ih2]

theorem stripList_of_no_space (l : List Char) (h : ∀ c ∈ l, isPySpace c = false) :
    stripList l = l := by
  unfold stripList
  rw [dropWhile_eq_self_of_all_false _ _ h]
  rw [dropWhile_eq_self_of_all_false _ _ (fun c hc => h c (List.mem_reverse.mp hc))]
  simp

/-- Facts about the decimal digits of a natural below its fuel: nonempty,
all characters decimal digits, and folding them back yields the value. -/
theorem natDigitsAux_spec (fuel : ℕ) :
    ∀ n < fuel, natDigitsAux fuel n ≠ [] ∧
      (∀ c ∈ natDigitsAux fuel n, 48 ≤ c.toNat ∧ c.toNat ≤ 57) ∧
      List.foldl
        (fun acc c =>
          match acc, digitVal 10 c with
          | some a, some d => some (a * 10 + d)
          | _, _ => none)
        (some 0) (natDigitsAux fuel n) = some n := by
  induction fuel with
  | zero => intro n hn; omega
  | succ fuel ih =>
    intro n hn
    by_cases h10 : n < 10
    · rw [natDigitsAux, if_pos h10]
      refine ⟨by simp, ?_, ?_⟩
      · intro c hc
        simp only [List.mem_singleton] at hc
        subst hc
        constructor <;> (interval_cases n <;> decide)
      · simp only [List.foldl_cons, List.foldl_nil]
        have hd : digitVal 10 (Char.ofNat (48 + n)) = some n := by
          interval_cases n <;> decide
        rw [hd]
        simp
    · rw [natDigitsAux, if_neg h10]
      have hrec := ih (n / 10) (by omega)
      obtain ⟨hne, hdig, hfold⟩ := hrec
      refine ⟨by simp, ?_, ?_⟩
      · intro c hc
        rw [List.mem_append] at hc
        rcases hc with hc | hc
        · exact hdig c hc
        · simp only [List.mem_singleton] at hc
          subst hc
          have hm : n % 10 < 10 := by omega
          set m := n % 10 with hmdef
          clear_value m
          constructor <;> (interval_cases m <;> decide)
      · rw [List.foldl_append, hfold]
        simp only [List.foldl_cons, List.foldl_nil]
        have hm : n % 10 < 10 := by omega
        have hd : digitVal 10 (Char.ofNat (48 + n % 10)) = some (n % 10) := by
          set m := n % 10 with hmdef
          clear_value m
          interval_cases m <;> decide
        rw [hd]
        simp only [Option.some.injEq]
        omega

theorem natDigits_spec (n : ℕ) :
    natDigits n ≠ [] ∧ (∀ c ∈ natDigits n, 48 ≤ c.toNat ∧ c.toNat ≤ 57) ∧
      digitsToNat 10 (natDigits n) = some n := by
  have h := natDigitsAux_spec (n + 1) n (by omega)
  obtain ⟨hne, hdig, hfold⟩ := h
  have hstep : ∀ L : List Char, L ≠ [] → digitsToNat 10 L =
      L.foldl
        (fun acc c =>
          match acc, digitVal 10 c with
          | some a, some d => some (a * 10 + d)
          | _, _ => none)
        (some 0) := by
    intro L hL
    cases L with
    | nil => exact absurd rfl hL
    | cons c t => rfl
  refine ⟨hne, hdig, ?_⟩
  unfold natDigits
  rw [hstep _ hne]
  exact hfold

theorem digit_not_space (c : Char) (h1 : 48 ≤ c.toNat) (h2 : c.toNat ≤ 57) :
    isPySpace c = false := by
  by_contra hs
  have hs2 : isPySpace c = true := by
    cases hval : isPySpace c
    · exact absurd hval hs
    · rfl
  unfold isPySpace at hs2
  simp only [Bool.or_eq_true, decide_eq_true_eq] at hs2
  rcases hs2 with ((((rfl | rfl) | rfl) | rfl) | rfl) | rfl <;> revert h1 h2 <;> decide

theorem digit_ne_char (c m : Char) (h1 : 48 ≤ c.toNat) (h2 : c.toNat ≤ 57)
    (hm : ¬ (48 ≤ m.toNat ∧ m.toNat ≤ 57)) : ¬ c = m := by
  intro h
  subst h
  exact hm ⟨h1, h2⟩

theorem toLower_digit (c : Char) (h1 : 48 ≤ c.toNat) (h2 : c.toNat ≤ 57) :
    Char.toLower c = c := by
  simp only [Char.toLower]
  rw [if_neg (by omega)]

theorem digits_no_marker (l : List Char)
    (hdig : ∀ c ∈ l, 48 ≤ c.toNat ∧ c.toNat ≤ 57) (m : Char)
    (hm : ¬ (48 ≤ m.toNat ∧ m.toNat ≤ 57)) :
    listStartsWith (l.map Char.toLower) ['0', m] = false := by
  cases l with
  | nil => rfl
  | cons c t =>
    cases t with
    | nil => simp [listStartsWith]
    | cons c1 t1 =>
      have hd1 := hdig c1 (by simp)
      have hlow : Char.toLower c1 = c1 := toLower_digit c1 hd1.1 hd1.2
      have hne : ¬ c1 = m := digit_ne_char c1 m hd1.1 hd1.2 hm
      simp [listStartsWith, hlow, hne]

theorem dropBaseMark_ten (l : List Char) : dropBaseMark 10 l = l := by
  cases l with
  | nil => rfl
  | cons a t =>
    cases t with
    | nil => rfl
    | cons c r =>
      rw [dropBaseMark, if_neg (by norm_num)]

theorem pyIntList_natDigits (n : ℕ) : pyIntList 10 (natDigits n) = some (n : ℤ) := by
  obtain ⟨hne, hdig, hfold⟩ := natDigits_spec n
  obtain ⟨c, t, hct⟩ : ∃ c t, natDigits n = c :: t := by
    cases hcd : natDigits n with
    | nil => exact absurd hcd hne
    | cons c t => exact ⟨c, t, rfl⟩
  have hnospace : ∀ c2 ∈ natDigits n, isPySpace c2 = false :=
    fun c2 hc2 => digit_not_space c2 (hdig c2 hc2).1 (hdig c2 hc2).2
  have hstrip : stripList (natDigits n) = natDigits n := stripList_of_no_space _ hnospace
  have hd0 := hdig c (by rw [hct]; simp)
  have hsm : listStartsWith (natDigits n) ['-'] = false := by
    rw [hct]
    simp [listStartsWith, digit_ne_char c '-' hd0.1 hd0.2 (by decide)]
  have hsp : listStartsWith (natDigits n) ['+'] = false := by
    rw [hct]
    simp [listStartsWith, digit_ne_char c '+' hd0.1 hd0.2 (by decide)]
  simp only [pyIntList, hstrip, hsm, hsp, Bool.false_eq_true, if_false, dropBaseMark_ten,
    hfold, Option.map_some]
  rfl

theorem parse_immediate_intStr (i : ℤ) : parse_immediate (intStr i) = .ok i := by
  rcases Int.lt_or_le i 0 with hneg | hpos
  · -- negative: "-" ++ digits of natAbs
    set n := i.natAbs with hn
    have hint : intStr i = "-" ++ natStr n := by
      rw [intStr, if_pos hneg]
    obtain ⟨hne, hdig, hfold⟩ := natDigits_spec n
    obtain ⟨c, t, hct⟩ : ∃ c t, natDigits n = c :: t := by
      cases hcd : natDigits n with
      | nil => exact absurd hcd hne
      | cons c t => exact ⟨c, t, rfl⟩
    have hdata : (intStr i).data = '-' :: natDigits n := by
      rw [hint, String.data_append]
      rfl
    have hnospace : ∀ c2 ∈ natDigits n, isPySpace c2 = false :=
      fun c2 hc2 => digit_not_space c2 (hdig c2 hc2).1 (hdig c2 hc2).2
    have hstripm : stripList ('-' :: natDigits n) = '-' :: natDigits n := by
      apply stripList_of_no_space
      intro c2 hc2
      rcases List.mem_cons.mp hc2 with rfl | hc2
      · rfl
      · exact hnospace c2 hc2
    have hstrip : stripList (natDigits n) = natDigits n := stripList_of_no_space _ hnospace
    have hd0 := hdig c (by rw [hct]; simp)
    simp only [parse_immediate, hdata, hstripm]
    rw [hct]
    simp only [← hct]
    have hsm : listStartsWith ('-' :: natDigits n) ['-'] = true := by
      simp [listStartsWith]
    simp only [hsm, if_true, List.drop_one, List.tail_cons, hstrip]
    have hlow0 : Char.toLower c = c := toLower_digit c hd0.1 hd0.2
    have hm1 : listStartsWith ((natDigits n).map Char.toLower) ['0', 'x'] = false :=
      digits_no_marker _ hdig 'x' (by decide)
    have hm2 : listStartsWith ((natDigits n).map Char.toLower) ['0', 'b'] = false :=
      digits_no_marker _ hdig 'b' (by decide)
    have hm3 : listStartsWith ((natDigits n).map Char.toLower) ['0', 'o'] = false :=
      digits_no_marker _ hdig 'o' (by decide)
    simp only [hm1, hm2, hm3, Bool.false_eq_true, if_false, pyIntList_natDigits]
    have : -(n : ℤ) = i := by omega
    rw [this]
  · -- non-negative: digits of toNat
    set n := i.toNat with hn
    have hint : intStr i = natStr n := by
      rw [intStr, if_neg (by omega)]
    obtain ⟨hne, hdig, hfold⟩ := natDigits_spec n
    obtain ⟨c, t, hct⟩ : ∃ c t, natDigits n = c :: t := by
      cases hcd : natDigits n with
      | nil => exact absurd hcd hne
      | cons c t => exact ⟨c, t, rfl⟩
    have hdata : (intStr i).data = natDigits n := by
      rw [hint]
      rfl
    have hnospace : ∀ c2 ∈ natDigits n, isPySpace c2 = false :=
      fun c2 hc2 => digit_not_space c2 (hdig c2 hc2).1 (hdig c2 hc2).2
    have hstrip : stripList (natDigits n) = natDigits n := stripList_of_no_space _ hnospace
    have hd0 := hdig c (by rw [hct]; simp)
    simp only [parse_immediate, hdata, hstrip]
    rw [hct]
    simp only [← hct]
    have hsm : listStartsWith (natDigits n) ['-'] = false := by
      rw [hct]
      simp [listStartsWith, digit_ne_char c '-' hd0.1 hd0.2 (by decide)]
    simp only [hsm, Bool.false_eq_true, if_false]
    have hm1 : listStartsWith ((natDigits n).map Char.toLower) ['0', 'x'] = false :=
      digits_no_marker _ hdig 'x' (by decide)
    have hm2 : listStartsWith ((natDigits n).map Char.toLower) ['0', 'b'] = false :=
      digits_no_marker _ hdig 'b' (by decide)
    have hm3 : listStartsWith ((natDigits n).map Char.toLower) ['0', 'o'] = false :=
      digits_no_marker _ hdig 'o' (by decide)
    simp only [hm1, hm2, hm3, Bool.false_eq_true, if_false, pyIntList_natDigits]
    have : (n : ℤ) = i := by omega
    rw [this]

end RiscVibe
namespace RiscVibe

/-! Claim theorems. -/

/-- C1: the claim that `expand_pseudo` and `get_pseudo_instruction_count`
agree fails on the code — for `li x1, 4096` (outside [-2048, 2047] with
computed lower12 = 0) the expansion is the single instruction
`lui x1, 1` while the count function answers 2. -/
theorem C1_expand_count_mismatch :
    expand_pseudo "li" ["x1", "4096"] = .ok [("lui", ["x1", "1"])] ∧
    get_pseudo_instruction_count "li" ["x1", "4096"] = 2 := by
  constructor <;> rfl

/-- C2: for every 32-bit constant `k` in [-2^31, 2^32 - 1], running the
sequence `expand_li` produces for `li rd, k` on the reference
interpreter, from the all-zero register file, leaves register `rd`
holding the 32-bit two's-complement representation of `k`
(that is, `k mod 2^32`). -/
theorem C2_li_reference_execution (rdName immS : String) (r : ℕ) (k : ℤ)
    (hr : parse_register rdName = .ok r)
    (hk : parse_immediate immS = .ok k)
    (hlo : -(2 ^ 31) ≤ k) (hhi : k ≤ 2 ^ 32 - 1) :
    ∃ prog st, expand_li [rdName, immS] = .ok prog ∧
      refExec prog (fun _ => 0) = .ok st ∧
      st r = (k % 2 ^ 32).toNat := by
  have hx0 : parse_register "x0" = .ok 0 := by rfl
  by_cases hsmall : -2048 ≤ k ∧ k ≤ 2047
  · refine ⟨[("addi", [rdName, "x0", intStr k])],
      (fun i => if i = r then (k % 2 ^ 32).toNat else 0), ?_, ?_, ?_⟩
    · simp only [expand_li, hk, if_pos hsmall]
    · simp only [refExec, refStep, andThen, hr, hx0, parse_immediate_intStr]
      rw [if_pos hsmall]
      show Except.ok _ = Except.ok _
      congr 1
      funext i
      by_cases hi : i = r <;> simp [hi]
    · simp
  · set upper0 : ℤ := (k + 0x800) / 4096 with hupper0
    set lower : ℤ := k - upper0 * 4096 with hlower
    set upper : ℤ := upper0 % 0x100000 with hupper
    have hub : 0 ≤ upper ∧ upper < 2 ^ 20 := by constructor <;> omega
    have hlb : -2048 ≤ lower ∧ lower ≤ 2047 := by constructor <;> omega
    set st1 : ℕ → ℕ := fun i => if i = r then (upper.toNat <<< 12) % 2 ^ 32 else 0
      with hst1
    have hluiState :
        refStep (fun _ => 0) ("lui", [rdName, intStr upper]) = .ok st1 := by
      simp only [refStep, andThen, hr, parse_immediate_intStr]
      rw [if_pos hub]
    have hst1r : st1 r = (upper.toNat <<< 12) % 2 ^ 32 := by
      rw [hst1]
      simp
    have hcast : (((upper.toNat <<< 12) % 2 ^ 32 : ℕ) : ℤ) = (upper * 4096) % 2 ^ 32 := by
      rw [Nat.shiftLeft_eq]
      push_cast
      rw [Int.toNat_of_nonneg hub.1]
    by_cases hlz : lower ≠ 0
    · refine ⟨[("lui", [rdName, intStr upper]), ("addi", [rdName, rdName, intStr lower])],
        (fun i => if i = r then (k % 2 ^ 32).toNat else st1 i), ?_, ?_, ?_⟩
      · simp only [expand_li, hk, if_neg hsmall, if_pos hlz]
        rfl
      · simp only [refExec]
        rw [hluiState]
        simp only [andThen, refExec, refStep, hr, parse_immediate_intStr]
        rw [if_pos hlb]
        show Except.ok _ = Except.ok _
        congr 1
        funext i
        by_cases hi : i = r
        · simp only [hi, if_pos rfl, hst1r]
          congr 1
          rw [hcast]
          omega
        · simp [hi]
      · simp
  
    · refine ⟨[("lui", [rdName, intStr upper])], st1, ?_, ?_, ?_⟩
      · simp only [expand_li, hk, if_neg hsmall, if_neg hlz]
      · simp only [refExec]
        rw [hluiState]
        rfl
      · rw [hst1r]
        have h2 : (((upper.toNat <<< 12) % 2 ^ 32 : ℕ) : ℤ) = ((k % 2 ^ 32).toNat : ℤ) := by
          rw [hcast, Int.toNat_of_nonneg (by omega)]
          omega
        omega

/-- Witness for C2: `li a0, 305419896` (0x12345678). -/
theorem C2_witness :
    ∃ prog st, expand_li ["a0", "305419896"] = .ok prog ∧
      refExec prog (fun _ => 0) = .ok st ∧
      st 10 = ((305419896 : ℤ) % 2 ^ 32).toNat :=
  C2_li_reference_execution "a0" "305419896" 10 305419896 (by decide) (by decide)
    (by decide) (by decide)

/-- C4: every B-type descriptor (7-bit opcode, 3-bit funct3) with
registers in [0, 31] and an even offset in [-4096, 4094] encodes to the
word with the claimed immediate bit placement; an odd offset, or an even
offset outside the range, raises `EncodingError`; `beq x1, x2` with
offset 0 encodes to `0x00208063`. -/
theorem C4_b_type_encoding :
    (∀ (instr : Instruction) (f3 rs1 rs2 : ℕ) (imm : ℤ),
      instr.format = .B → instr.funct3 = some f3 → instr.opcode < 128 → f3 < 8 →
      rs1 < 32 → rs2 < 32 → imm % 2 = 0 → -4096 ≤ imm → imm ≤ 4094 →
      encode_b_type instr rs1 rs2 imm = .ok (specBWord instr.opcode f3 rs1 rs2 imm)) ∧
    (∀ (instr : Instruction) (rs1 rs2 : ℕ) (imm : ℤ), imm % 2 ≠ 0 →
      errKind (encode_b_type instr rs1 rs2 imm) = some .encodingErr) ∧
    (∀ (instr : Instruction) (rs1 rs2 : ℕ) (imm : ℤ), imm % 2 = 0 →
      (imm < -4096 ∨ 4094 < imm) →
      errKind (encode_b_type instr rs1 rs2 imm) = some .encodingErr) ∧
    (get_instruction "beq" = some ⟨0x63, .B, some 0b000, none⟩ ∧
      encode_b_type ⟨0x63, .B, some 0b000, none⟩ 1 2 0 = .ok 0x00208063) := by
  refine ⟨?_, ?_, ?_, by decide, by decide⟩
  · intro instr f3 rs1 rs2 imm hfmt hf3v hop hf3 hr1 hr2 he hlo hhi
    have hnotodd : ¬ imm % 2 ≠ 0 := by omega
    simp only [encode_b_type, check_immediate_range, hf3v, if_neg hnotodd]
    norm_num
    rw [if_pos (by constructor <;> omega)]
    simp only [lowBits, Option.getD_some]
    have hU : (imm % 2 ^ 13).toNat < 8192 := by omega
    have hUe : (imm % 2 ^ 13).toNat % 2 = 0 := by omega
    rw [even_land_mask _ hU hUe]
    rw [land_mask_eq_mod instr.opcode 127 7 (by norm_num),
        land_mask_eq_mod f3 7 3 (by norm_num),
        land_mask_eq_mod rs1 31 5 (by norm_num),
        land_mask_eq_mod rs2 31 5 (by norm_num),
        land_mask_eq_mod _ 15 4 (by norm_num),
        land_mask_eq_mod _ 63 6 (by norm_num)]
    rw [Nat.shiftRight_eq_div_pow, Nat.shiftRight_eq_div_pow, Nat.shiftRight_eq_div_pow,
        Nat.shiftRight_eq_div_pow]
    rw [word8_or_to_add _ _ _ _ _ _ _ _ (by omega) (by omega) (by omega) (by omega)
        (by omega) (by omega) (by omega)]
    simp only [specBWord]
    norm_num
    omega
  · intro instr rs1 rs2 imm h
    simp only [encode_b_type, if_pos h, errKind]
    rfl
  · intro instr rs1 rs2 imm he h
    have hnotodd : ¬ imm % 2 ≠ 0 := by omega
    simp only [encode_b_type, check_immediate_range, if_neg hnotodd]
    norm_num
    rw [if_neg (by omega)]
    rfl

/-- Witness for C4: `beq x1, x2` at even in-range offset -4096 encodes
per the claimed bit placement. -/
theorem C4_witness :
    encode_b_type ⟨0x63, InstructionFormat.B, some 0, none⟩ 1 2 (-4096)
      = .ok (specBWord 0x63 0 1 2 (-4096)) :=
  C4_b_type_encoding.1 ⟨0x63, .B, some 0, none⟩ 0 1 2 (-4096) rfl rfl (by norm_num)
    (by norm_num) (by norm_num) (by norm_num) (by decide) (by decide) (by decide)

/-- C5: `jal` (every J-type descriptor with a 7-bit opcode) with `rd` in
[0, 31] and an even offset in [-1048576, 1048574] encodes to the word
with the claimed immediate bit placement; an odd offset raises
`EncodingError`; `jal x1, 8` encodes to `0x008000ef` and `jal x0, -4`
to `0xffdff06f`. -/
theorem C5_j_type_encoding :
    (∀ (instr : Instruction) (rd : ℕ) (imm : ℤ),
      instr.format = .J → instr.opcode < 128 → rd < 32 →
      imm % 2 = 0 → -1048576 ≤ imm → imm ≤ 1048574 →
      encode_j_type instr rd imm = .ok (specJWord instr.opcode rd imm)) ∧
    (∀ (instr : Instruction) (rd : ℕ) (imm : ℤ), imm % 2 ≠ 0 →
      errKind (encode_j_type instr rd imm) = some .encodingErr) ∧
    (get_instruction "jal" = some ⟨0x6F, .J, none, none⟩ ∧
      encode_j_type ⟨0x6F, .J, none, none⟩ 1 8 = .ok 0x008000ef ∧
      encode_j_type ⟨0x6F, .J, none, none⟩ 0 (-4) = .ok 0xffdff06f) := by
  refine ⟨?_, ?_, by decide, by decide, by decide⟩
  · intro instr rd imm hfmt hop hrd he hlo hhi
    have hnotodd : ¬ imm % 2 ≠ 0 := by omega
    simp only [encode_j_type, check_immediate_range, if_neg hnotodd]
    norm_num
    rw [if_pos (by constructor <;> omega)]
    simp only [lowBits]
    rw [land_mask_eq_mod instr.opcode 127 7 (by norm_num),
        land_mask_eq_mod rd 31 5 (by norm_num),
        land_mask_eq_mod _ 255 8 (by norm_num),
        land_mask_eq_mod _ 1023 10 (by norm_num)]
    rw [Nat.shiftRight_eq_div_pow, Nat.shiftRight_eq_div_pow, Nat.shiftRight_eq_div_pow,
        Nat.shiftRight_eq_div_pow]
    rw [word6_or_to_add _ _ _ _ _ _ (by omega) (by omega) (by omega) (by omega) (by omega)]
    simp only [specJWord]
    norm_num
    omega
  · intro instr rd imm h
    simp only [encode_j_type, if_pos h, errKind]
    rfl

/-- Witness for C5: `jal x0` at offset -1048576 encodes per the claimed
bit placement. -/
theorem C5_witness :
    encode_j_type ⟨0x6F, InstructionFormat.J, none, none⟩ 0 (-1048576)
      = .ok (specJWord 0x6F 0 (-1048576)) :=
  C5_j_type_encoding.1 ⟨0x6F, .J, none, none⟩ 0 (-1048576) rfl (by norm_num) (by norm_num)
    (by decide) (by decide) (by decide)

/-- C6: the claim that every error of an assembly run carries the source
line number and original text fails on the code — assembling the single
line `li x1` (line 1) raises the Pass-2 expansion error
`LI requires 2 operands, got 1` with no line number and no line text
attached, because `Assembler._pass2` calls `expand_pseudo` outside any
handler that would add them. -/
theorem C6_expansion_error_lacks_line_info :
    assemble_lines [⟨1, none, some "li", ["x1"], "li x1", false⟩] =
      .error ⟨.parseErr, "LI requires 2 operands, got 1", none, none⟩ := by
  rfl

/-- C8: the claim that `ecall`/`ebreak` with a non-empty operand list
fail with `ParseError` is false — `Assembler._parse_operands` returns
before any operand-count check, so `ecall x1` resolves and encodes
successfully. -/
theorem C8_counterexample :
    asm_parse_operands [] 0 ⟨0x73, InstructionFormat.I, some 0, none⟩ "ecall"
        ["x1"] 1 "ecall x1" = .ok (0, 0, 0, 0) ∧
    asm_encode_instruction [] 0 "ecall" ["x1"] 1 "ecall x1" = .ok 0x00000073 := by
  constructor <;> rfl

/-- C8 (amended): `ecall` and `ebreak` ignore their operand list —
operand resolution returns `(rd, rs1, rs2, imm) = (0, 0, 0, 0)` for
every operand list — and encoding yields the word with `rd = 0`,
`rs1 = 0` and the descriptor's system immediate: `0x00000073` for
`ecall`, `0x00100073` for `ebreak`. -/
theorem C8_system_operands_ignored :
    (∀ (symbols : List (String × ℕ)) (pc : ℕ) (instr : Instruction)
        (ops : List String) (ln : ℕ) (tx : String),
      asm_parse_operands symbols pc instr "ecall" ops ln tx = .ok (0, 0, 0, 0) ∧
      asm_parse_operands symbols pc instr "ebreak" ops ln tx = .ok (0, 0, 0, 0)) ∧
    (∀ (symbols : List (String × ℕ)) (pc ln : ℕ) (tx : String),
      asm_encode_instruction symbols pc "ecall" [] ln tx = .ok 0x00000073 ∧
      asm_encode_instruction symbols pc "ebreak" [] ln tx = .ok 0x00100073) := by
  constructor
  · intro symbols pc instr ops ln tx
    constructor <;> rfl
  · intro symbols pc ln tx
    constructor <;> rfl

/-- C10: for a valid register name made of word characters, the memory
operands `(reg)` (empty offset part) and `-(reg)` (offset part a lone
minus sign) both parse successfully to offset 0 with that register. -/
theorem C10_empty_or_minus_offset (reg : String) (hne : reg.data ≠ [])
    (hw : ∀ c ∈ reg.data, isWordChar c = true)
    (hv : is_valid_register reg = true) :
    parse_memory_operand ("(" ++ reg ++ ")") = .ok (0, reg) ∧
    parse_memory_operand ("-(" ++ reg ++ ")") = .ok (0, reg) := by
  have hnospace : ∀ c ∈ reg.data, isPySpace c = false :=
    fun c hc => word_not_space c (hw c hc)
  obtain ⟨c, t, hct⟩ : ∃ c t, reg.data = c :: t := by
    cases hcd : reg.data with
    | nil => exact absurd hcd hne
    | cons c t => exact ⟨c, t, rfl⟩
  have htw1 : List.takeWhile isWordChar ('(' :: (reg.data ++ [')'])) = [] := by
    rw [List.takeWhile_cons]
    norm_num [show isWordChar '(' = false from rfl]
  have hdw2 : List.dropWhile isWordChar ('(' :: (reg.data ++ [')']))
      = '(' :: (reg.data ++ [')']) := by
    rw [List.dropWhile_cons]
    norm_num [show isWordChar '(' = false from rfl]
  have hdw2b : List.dropWhile isPySpace ('(' :: (reg.data ++ [')']))
      = '(' :: (reg.data ++ [')']) := by
    rw [List.dropWhile_cons]
    norm_num [show isPySpace '(' = false from rfl]
  have hpar : listStartsWith ('(' :: (reg.data ++ [')'])) ['('] = true := by
    simp [listStartsWith]
  have hdw3 : List.dropWhile isPySpace (reg.data ++ [')']) = reg.data ++ [')'] := by
    rw [hct, List.cons_append, List.dropWhile_cons,
      hnospace c (by rw [hct]; simp)]
    simp
  have htwreg : List.takeWhile isWordChar (reg.data ++ [')']) = reg.data :=
    takeWhile_append_all _ _ _ _ (fun a ha => hw a ha) rfl
  have hdwreg : List.dropWhile isWordChar (reg.data ++ [')']) = [')'] :=
    dropWhile_append_all _ _ _ _ (fun a ha => hw a ha) rfl
  have hstrip : stripList reg.data = reg.data := stripList_of_no_space _ hnospace
  have hmk : String.mk reg.data = reg := by
    cases reg
    rfl
  have hdwrp : List.dropWhile isPySpace [')'] = [')'] := by
    rw [List.dropWhile_cons]
    norm_num [show isPySpace ')' = false from rfl]
  constructor
  · have hdata : ("(" ++ reg ++ ")").data = '(' :: (reg.data ++ [')']) := by
      simp [String.data_append]
    have hdw1 : List.dropWhile isPySpace ('(' :: (reg.data ++ [')']))
        = '(' :: (reg.data ++ [')']) := hdw2b
    have hsign : listStartsWith ('(' :: (reg.data ++ [')'])) ['-'] = false := by
      simp [listStartsWith]
    simp only [parse_memory_operand, hdata, hdw1, hsign, htw1, hdw2, hpar, if_false,
      Bool.false_eq_true, if_true, List.tail_cons, hdw3, htwreg, hdwreg, hstrip, hmk]
    rw [if_pos ⟨hne, by simp [listStartsWith], by rw [hdwrp]; simp⟩]
    simp [hv, show stripList [] = [] from rfl]
  · have hdata : ("-(" ++ reg ++ ")").data = '-' :: '(' :: (reg.data ++ [')']) := by
      simp [String.data_append]
    have hdw1 : List.dropWhile isPySpace ('-' :: '(' :: (reg.data ++ [')']))
        = '-' :: '(' :: (reg.data ++ [')']) := by
      rw [List.dropWhile_cons]
      norm_num [show isPySpace '-' = false from rfl]
    have hsign : listStartsWith ('-' :: '(' :: (reg.data ++ [')'])) ['-'] = true := by
      simp [listStartsWith]
    simp only [parse_memory_operand, hdata, hdw1, hsign, htw1, hdw2, hdw2b, hpar, if_true,
      List.tail_cons, hdw3, htwreg, hdwreg, hstrip, hmk]
    rw [if_pos ⟨hne, by simp [listStartsWith], by rw [hdwrp]; simp⟩]
    simp [hv, show stripList ['-'] = ['-'] from rfl]

/-- Witness for C10: the register `sp`. -/
theorem C10_witness :
    parse_memory_operand ("(" ++ "sp" ++ ")") = .ok (0, "sp") ∧
    parse_memory_operand ("-(" ++ "sp" ++ ")") = .ok (0, "sp") :=
  C10_empty_or_minus_offset "sp" (by decide) (by decide) (by decide)

/-- The find-then-minimum marker selection of `strip_comments` agrees
with the single left-to-right scan for the first marker. -/
theorem combineFind_findSub (l : List Char) :
    combineFind (findSub l ['#']) (findSub l ['/', '/']) = firstMarkerPos l := by
  induction l with
  | nil => rfl
  | cons c t ih =>
    by_cases hh : c = '#'
    · subst hh
      have h1 : findSub ('#' :: t) ['#'] = some 0 := by
        simp [findSub, listStartsWith]
      rw [h1, firstMarkerPos]
      rw [if_pos (Or.inl rfl)]
      cases hD : findSub ('#' :: t) ['/', '/'] <;> simp [combineFind]
    · have h1 : findSub (c :: t) ['#'] = (findSub t ['#']).map (· + 1) := by
        simp [findSub, listStartsWith, hh]
      by_cases hs : listStartsWith (c :: t) ['/', '/']
      · have h2 : findSub (c :: t) ['/', '/'] = some 0 := by
          simp [findSub, hs]
        rw [h1, h2, firstMarkerPos, if_pos (Or.inr hs)]
        cases hX : findSub t ['#'] <;> simp [combineFind]
      · have h2 : findSub (c :: t) ['/', '/'] = (findSub t ['/', '/']).map (· + 1) := by
          simp [findSub, hs]
        rw [h1, h2, firstMarkerPos, if_neg (by tauto)]
        rw [← ih]
        cases hX : findSub t ['#'] <;> cases hY : findSub t ['/', '/'] <;>
          simp [combineFind] <;> omega

/-- C7: the claim that a marker inside a parenthesized memory operand is
left intact is false — in `lw x1, 0(x2#)` the only `#` sits inside the
parentheses, yet `strip_comments` truncates the line at it. -/
theorem C7_counterexample :
    strip_comments "lw x1, 0(x2#)" = "lw x1, 0(x2" ∧
    strip_comments "lw x1, 0(x2#)" ≠ "lw x1, 0(x2#)" := by
  constructor <;> decide

/-- C7 (amended): comment stripping truncates every line at the first
`#` or `//` marker anywhere in it — whichever of the two appears first
wins — with no regard for parentheses; a line with no marker is
returned unchanged. -/
theorem C7_strip_comments_first_marker (s : String) :
    strip_comments s =
      match firstMarkerPos s.data with
      | some p => String.mk (s.data.take p)
      | none => s := by
  simp only [strip_comments]
  rw [combineFind_findSub]


/-- The source-map entries of one pseudo expansion carry consecutive
word addresses from the starting address, one entry per word. -/
theorem emitExpanded_addresses (symbols : List (String × ℕ)) :
    ∀ (exps : List (String × List String)) (ln : ℕ) (orig : String) (addr : ℕ)
      (ws : List ℕ) (sm : List (ℕ × String × ℕ)),
      emitExpanded symbols exps ln orig addr = .ok (ws, sm) →
      sm.length = exps.length ∧
      ∀ (j : ℕ) (hj : j < sm.length), (sm.get ⟨j, hj⟩).1 = addr + 4 * j := by
  intro exps
  induction exps with
  | nil =>
    intro ln orig addr ws sm h
    simp only [emitExpanded] at h
    cases h
    exact ⟨rfl, fun j hj => absurd hj (by simp)⟩
  | cons e rest ih =>
    intro ln orig addr ws sm h
    obtain ⟨m, ops⟩ := e
    simp only [emitExpanded] at h
    cases hw : asm_encode_instruction symbols addr m ops ln orig with
    | error err => rw [hw] at h; simp [andThen] at h
    | ok w =>
      rw [hw] at h
      simp only [andThen] at h
      cases hrest : emitExpanded symbols rest ln orig (addr + 4) with
      | error err => rw [hrest] at h; simp at h
      | ok pr =>
        obtain ⟨ws2, sm2⟩ := pr
        rw [hrest] at h
        simp only at h
        cases h
        obtain ⟨hlen, haddr⟩ := ih ln orig (addr + 4) ws2 sm2 hrest
        constructor
        · simp [hlen]
        · intro j hj
          cases j with
          | zero => simp
          | succ j2 =>
            have hj2 : j2 < sm2.length := by
              simp at hj
              omega
            have := haddr j2 hj2
            simp only [List.get_cons_succ]
            rw [this]
            omega

/-- The source-map addresses produced by the Pass 2 loop from a starting
address are consecutive word addresses. -/
theorem pass2Go_addresses (symbols : List (String × ℕ)) :
    ∀ (lines : List ParsedLine) (addr : ℕ) (ws : List ℕ) (sm : List (ℕ × String × ℕ)),
      pass2Go symbols lines addr = .ok (ws, sm) →
      ∀ (j : ℕ) (hj : j < sm.length), (sm.get ⟨j, hj⟩).1 = addr + 4 * j := by
  intro lines
  induction lines with
  | nil =>
    intro addr ws sm h j hj
    simp only [pass2Go] at h
    cases h
    exact absurd hj (by simp)
  | cons line rest ih =>
    intro addr ws sm h
    simp only [pass2Go] at h
    by_cases hskip : line.mnemonic.isNone = true ∨ line.is_directive = true
    · rw [if_pos hskip] at h
      exact ih addr ws sm h
    · rw [if_neg hskip] at h
      by_cases hps : is_pseudo_instruction (pyLower (line.mnemonic.getD "")) = true
      · rw [if_pos hps] at h
        cases hexp : expand_pseudo (pyLower (line.mnemonic.getD "")) line.operands with
        | error e => rw [hexp] at h; simp [andThen] at h
        | ok exps =>
          rw [hexp] at h
          simp only [andThen] at h
          cases hemit : emitExpanded symbols exps line.line_num line.original addr with
          | error e => rw [hemit] at h; simp at h
          | ok pr1 =>
            obtain ⟨ws1, sm1⟩ := pr1
            rw [hemit] at h
            simp only at h
            cases hrest : pass2Go symbols rest (addr + 4 * exps.length) with
            | error e => rw [hrest] at h; simp at h
            | ok pr2 =>
              obtain ⟨ws2, sm2⟩ := pr2
              rw [hrest] at h
              simp only at h
              cases h
              obtain ⟨hlen1, haddr1⟩ := emitExpanded_addresses symbols exps
                line.line_num line.original addr ws1 sm1 hemit
              have haddr2 := ih (addr + 4 * exps.length) ws2 sm2 hrest
              intro j hj
              rcases Nat.lt_or_ge j sm1.length with hlt | hge
              · rw [List.get_append _ hlt]
                exact haddr1 j hlt
              · have hj2 : j - sm1.length < sm2.length := by
                  rw [List.length_append] at hj
                  omega
                rw [List.get_append_right _ _ (by omega)]
                have := haddr2 (j - sm1.length) (by simpa using hj2)
                simp only at this ⊢
                rw [this]
                rw [hlen1]
                omega
      · rw [if_neg hps] at h
        cases hw : asm_encode_instruction symbols addr (pyLower (line.mnemonic.getD ""))
            line.operands line.line_num line.original with
        | error e => rw [hw] at h; simp [andThen] at h
        | ok w =>
          rw [hw] at h
          simp only [andThen] at h
          cases hrest : pass2Go symbols rest (addr + 4) with
          | error e => rw [hrest] at h; simp at h
          | ok pr2 =>
            obtain ⟨ws2, sm2⟩ := pr2
            rw [hrest] at h
            simp only at h
            cases h
            have haddr2 := ih (addr + 4) ws2 sm2 hrest
            intro j hj
            cases j with
            | zero => simp
            | succ j2 =>
              have hj2 : j2 < sm2.length := by
                simp at hj
                omega
              have := haddr2 j2 hj2
              simp only [List.get_cons_succ]
              rw [this]
              omega

/-- Every address Pass 1 binds is a multiple of 4 (starting from a
4-aligned address and an already 4-aligned table). -/
theorem pass1Go_aligned :
    ∀ (lines : List ParsedLine) (symbols : List (String × ℕ)) (addr : ℕ)
      (symbols2 : List (String × ℕ)) (pcEnd : ℕ),
      (∀ e ∈ symbols, e.2 % 4 = 0) → addr % 4 = 0 →
      pass1Go lines symbols addr = .ok (symbols2, pcEnd) →
      ∀ e ∈ symbols2, e.2 % 4 = 0 := by
  intro lines
  induction lines with
  | nil =>
    intro symbols addr symbols2 pcEnd hsym haddr h
    simp only [pass1Go] at h
    cases h
    exact hsym
  | cons line rest ih =>
    intro symbols addr symbols2 pcEnd hsym haddr h
    simp only [pass1Go] at h
    cases hlab : line.label with
    | some lab =>
      rw [hlab] at h
      simp only at h
      by_cases hdup : (symbols.lookup lab).isSome = true
      · rw [if_pos hdup] at h
        simp at h
      · rw [if_neg hdup] at h
        simp only at h
        have hsym2 : ∀ e ∈ symbols ++ [(lab, addr)], e.2 % 4 = 0 := by
          intro e he
          rcases List.mem_append.mp he with he | he
          · exact hsym e he
          · simp at he
            subst he
            exact haddr
        by_cases hskip : line.mnemonic.isNone = true ∨ line.is_directive = true
        · rw [if_pos hskip] at h
          exact ih _ _ _ _ hsym2 haddr h
        · rw [if_neg hskip] at h
          exact ih _ _ _ _ hsym2 (by omega) h
    | none =>
      rw [hlab] at h
      simp only at h
      by_cases hskip : line.mnemonic.isNone = true ∨ line.is_directive = true
      · rw [if_pos hskip] at h
        exact ih _ _ _ _ hsym haddr h
      · rw [if_neg hskip] at h
        exact ih _ _ _ _ hsym (by omega) h

/-- C3: in Pass 2 operand resolution, a label operand in the target
position of a B-type branch or of J-type `jal` resolves to the
PC-relative immediate `symbol_address - current_pc`, while a label in an
I-type or U-type immediate position (`_resolve_immediate`) resolves to
the absolute `symbol_address`; replacing the label by any literal that
parses to that value (and is not itself a symbol) yields the identical
resolved operand tuple and the identical encoded word. -/
theorem C3_label_resolution :
    (∀ (symbols : List (String × ℕ)) (pc : ℕ) (instr : Instruction) (m : String)
        (r1 r2 lbl s : String) (a n1 n2 ln : ℕ) (tx : String),
      instr.format = .B → get_instruction m = some instr →
      m ≠ "ecall" → m ≠ "ebreak" → m ≠ "fence" →
      parse_register r1 = .ok n1 → parse_register r2 = .ok n2 →
      symbols.lookup (pyStrip lbl) = some a →
      pyStrip s = s → symbols.lookup s = none →
      parse_immediate s = .ok ((a : ℤ) - (pc : ℤ)) →
      asm_parse_operands symbols pc instr m [r1, r2, lbl] ln tx
          = .ok (0, n1, n2, (a : ℤ) - (pc : ℤ)) ∧
      asm_parse_operands symbols pc instr m [r1, r2, s] ln tx
          = .ok (0, n1, n2, (a : ℤ) - (pc : ℤ)) ∧
      asm_encode_instruction symbols pc m [r1, r2, lbl] ln tx
          = asm_encode_instruction symbols pc m [r1, r2, s] ln tx) ∧
    (∀ (symbols : List (String × ℕ)) (pc : ℕ) (instr : Instruction) (m : String)
        (rdS lbl s : String) (a n ln : ℕ) (tx : String),
      instr.format = .J → get_instruction m = some instr →
      m ≠ "ecall" → m ≠ "ebreak" → m ≠ "fence" →
      parse_register rdS = .ok n →
      symbols.lookup (pyStrip lbl) = some a →
      pyStrip s = s → symbols.lookup s = none →
      parse_immediate s = .ok ((a : ℤ) - (pc : ℤ)) →
      asm_parse_operands symbols pc instr m [rdS, lbl] ln tx
          = .ok (n, 0, 0, (a : ℤ) - (pc : ℤ)) ∧
      asm_parse_operands symbols pc instr m [rdS, s] ln tx
          = .ok (n, 0, 0, (a : ℤ) - (pc : ℤ)) ∧
      asm_encode_instruction symbols pc m [rdS, lbl] ln tx
          = asm_encode_instruction symbols pc m [rdS, s] ln tx) ∧
    (∀ (symbols : List (String × ℕ)) (v : String) (a ln : ℕ) (tx : String),
      symbols.lookup (pyStrip v) = some a →
      asm_resolve_immediate symbols v ln tx = .ok (a : ℤ)) ∧
    (∀ (symbols : List (String × ℕ)) (pc : ℕ) (instr : Instruction) (m : String)
        (rdS lbl s : String) (a n ln : ℕ) (tx : String),
      instr.format = .U → get_instruction m = some instr →
      m ≠ "ecall" → m ≠ "ebreak" → m ≠ "fence" →
      parse_register rdS = .ok n →
      symbols.lookup (pyStrip lbl) = some a →
      pyStrip s = s → symbols.lookup s = none →
      parse_immediate s = .ok (a : ℤ) →
      asm_parse_operands symbols pc instr m [rdS, lbl] ln tx = .ok (n, 0, 0, (a : ℤ)) ∧
      asm_parse_operands symbols pc instr m [rdS, s] ln tx = .ok (n, 0, 0, (a : ℤ)) ∧
      asm_encode_instruction symbols pc m [rdS, lbl] ln tx
          = asm_encode_instruction symbols pc m [rdS, s] ln tx) ∧
    (∀ (symbols : List (String × ℕ)) (pc : ℕ) (instr : Instruction) (m : String)
        (r0 r1 lbl s : String) (a n0 n1 ln : ℕ) (tx : String),
      instr.format = .I → get_instruction m = some instr →
      m ≠ "ecall" → m ≠ "ebreak" → m ≠ "fence" →
      m ≠ "lb" → m ≠ "lh" → m ≠ "lw" → m ≠ "lbu" → m ≠ "lhu" → m ≠ "jalr" →
      parse_register r0 = .ok n0 → parse_register r1 = .ok n1 →
      symbols.lookup (pyStrip lbl) = some a →
      pyStrip s = s → symbols.lookup s = none →
      parse_immediate s = .ok (a : ℤ) →
      asm_parse_operands symbols pc instr m [r0, r1, lbl] ln tx
          = .ok (n0, n1, 0, (a : ℤ)) ∧
      asm_parse_operands symbols pc instr m [r0, r1, s] ln tx
          = .ok (n0, n1, 0, (a : ℤ)) ∧
      asm_encode_instruction symbols pc m [r0, r1, lbl] ln tx
          = asm_encode_instruction symbols pc m [r0, r1, s] ln tx) := by
  have hresolve : ∀ (symbols : List (String × ℕ)) (v : String) (a ln : ℕ) (tx : String),
      symbols.lookup (pyStrip v) = some a →
      asm_resolve_immediate symbols v ln tx = .ok (a : ℤ) := by
    intro symbols v a ln tx h
    simp only [asm_resolve_immediate, h]
  refine ⟨?_, ?_, hresolve, ?_, ?_⟩
  · intro symbols pc instr m r1 r2 lbl s a n1 n2 ln tx hfmt hget hm1 hm2 hm3 hr1 hr2
      hlbl hclean hslook hsimm
    have hp1 : asm_parse_operands symbols pc instr m [r1, r2, lbl] ln tx
        = .ok (0, n1, n2, (a : ℤ) - (pc : ℤ)) := by
      simp only [asm_parse_operands, if_neg (show ¬(m = "ecall" ∨ m = "ebreak") by tauto),
        if_neg hm3, hfmt, andThen, hr1, hr2, hlbl]
    have hp2 : asm_parse_operands symbols pc instr m [r1, r2, s] ln tx
        = .ok (0, n1, n2, (a : ℤ) - (pc : ℤ)) := by
      simp only [asm_parse_operands, if_neg (show ¬(m = "ecall" ∨ m = "ebreak") by tauto),
        if_neg hm3, hfmt, andThen, hr1, hr2, hclean, hslook,
        asm_resolve_immediate, hsimm]
    refine ⟨hp1, hp2, ?_⟩
    simp only [asm_encode_instruction, hget, andThen, hp1, hp2]
  · intro symbols pc instr m rdS lbl s a n ln tx hfmt hget hm1 hm2 hm3 hrd
      hlbl hclean hslook hsimm
    have hp1 : asm_parse_operands symbols pc instr m [rdS, lbl] ln tx
        = .ok (n, 0, 0, (a : ℤ) - (pc : ℤ)) := by
      simp only [asm_parse_operands, if_neg (show ¬(m = "ecall" ∨ m = "ebreak") by tauto),
        if_neg hm3, hfmt, andThen, hrd, hlbl]
    have hp2 : asm_parse_operands symbols pc instr m [rdS, s] ln tx
        = .ok (n, 0, 0, (a : ℤ) - (pc : ℤ)) := by
      simp only [asm_parse_operands, if_neg (show ¬(m = "ecall" ∨ m = "ebreak") by tauto),
        if_neg hm3, hfmt, andThen, hrd, hclean, hslook,
        asm_resolve_immediate, hsimm]
    refine ⟨hp1, hp2, ?_⟩
    simp only [asm_encode_instruction, hget, andThen, hp1, hp2]
  · intro symbols pc instr m rdS lbl s a n ln tx hfmt hget hm1 hm2 hm3 hrd
      hlbl hclean hslook hsimm
    have hp1 : asm_parse_operands symbols pc instr m [rdS, lbl] ln tx
        = .ok (n, 0, 0, (a : ℤ)) := by
      simp only [asm_parse_operands, if_neg (show ¬(m = "ecall" ∨ m = "ebreak") by tauto),
        if_neg hm3, hfmt, andThen, hrd, hresolve symbols lbl a ln tx hlbl]
    have hp2 : asm_parse_operands symbols pc instr m [rdS, s] ln tx
        = .ok (n, 0, 0, (a : ℤ)) := by
      simp only [asm_parse_operands, if_neg (show ¬(m = "ecall" ∨ m = "ebreak") by tauto),
        if_neg hm3, hfmt, andThen, hrd, asm_resolve_immediate, hclean, hslook, hsimm]
    refine ⟨hp1, hp2, ?_⟩
    simp only [asm_encode_instruction, hget, andThen, hp1, hp2]
  · intro symbols pc instr m r0 r1 lbl s a n0 n1 ln tx hfmt hget hm1 hm2 hm3
      hl1 hl2 hl3 hl4 hl5 hjalr hr0 hr1 hlbl hclean hslook hsimm
    have hnl : ¬(m = "lb" ∨ m = "lh" ∨ m = "lw" ∨ m = "lbu" ∨ m = "lhu") := by tauto
    have hp1 : asm_parse_operands symbols pc instr m [r0, r1, lbl] ln tx
        = .ok (n0, n1, 0, (a : ℤ)) := by
      simp only [asm_parse_operands, if_neg (show ¬(m = "ecall" ∨ m = "ebreak") by tauto),
        if_neg hm3, hfmt, if_neg hnl, if_neg hjalr, andThen, hr0, hr1,
        hresolve symbols lbl a ln tx hlbl]
    have hp2 : asm_parse_operands symbols pc instr m [r0, r1, s] ln tx
        = .ok (n0, n1, 0, (a : ℤ)) := by
      simp only [asm_parse_operands, if_neg (show ¬(m = "ecall" ∨ m = "ebreak") by tauto),
        if_neg hm3, hfmt, if_neg hnl, if_neg hjalr, andThen, hr0, hr1,
        asm_resolve_immediate, hclean, hslook, hsimm]
    refine ⟨hp1, hp2, ?_⟩
    simp only [asm_encode_instruction, hget, andThen, hp1, hp2]

/-- Witness for C3: `loop: beq x1, x2, loop` at pc 0, with the label
replaced by the literal 0. -/
theorem C3_witness :
    asm_parse_operands [("loop", 0)] 0 ⟨0x63, InstructionFormat.B, some 0, none⟩ "beq"
        ["x1", "x2", "loop"] 1 "loop: beq x1, x2, loop"
      = .ok (0, 1, 2, (0 : ℤ) - (0 : ℤ)) ∧
    asm_parse_operands [("loop", 0)] 0 ⟨0x63, InstructionFormat.B, some 0, none⟩ "beq"
        ["x1", "x2", "0"] 1 "loop: beq x1, x2, loop"
      = .ok (0, 1, 2, (0 : ℤ) - (0 : ℤ)) ∧
    asm_encode_instruction [("loop", 0)] 0 "beq" ["x1", "x2", "loop"] 1
        "loop: beq x1, x2, loop"
      = asm_encode_instruction [("loop", 0)] 0 "beq" ["x1", "x2", "0"] 1
        "loop: beq x1, x2, loop" :=
  C3_label_resolution.1 [("loop", 0)] 0 ⟨0x63, .B, some 0, none⟩ "beq" "x1" "x2" "loop" "0"
    0 1 2 1 "loop: beq x1, x2, loop" rfl (by decide) (by decide) (by decide) (by decide)
    (by decide) (by decide) (by decide) (by decide) (by decide) (by decide)

/-- C9: for every accepted source (Pass 1 and Pass 2 both succeed), the
address recorded in the source map for the k-th emitted word is `4 * k`,
and every address Pass 1 binds to a symbol is a multiple of 4. -/
theorem C9_word_addresses (lines : List ParsedLine) (symbols : List (String × ℕ)) (pcEnd : ℕ)
    (instrs : List ℕ) (smap : List (ℕ × String × ℕ))
    (h1 : pass1 lines = .ok (symbols, pcEnd))
    (h2 : pass2 symbols lines = .ok (instrs, smap)) :
    (∀ (j : ℕ) (hj : j < smap.length), (smap.get ⟨j, hj⟩).1 = 4 * j) ∧
    (∀ e ∈ symbols, e.2 % 4 = 0) := by
  constructor
  · intro j hj
    have := pass2Go_addresses symbols lines 0 instrs smap h2 j hj
    omega
  · exact pass1Go_aligned lines [] 0 symbols pcEnd (by simp) rfl h1

/-- Witness for C9: the one-line program `addi x1, x0, 10`. -/
theorem C9_witness :
    (∀ (j : ℕ) (hj : j < ([((0 : ℕ), "addi x1, x0, 10", (1 : ℕ))]).length),
      (([((0 : ℕ), "addi x1, x0, 10", (1 : ℕ))]).get ⟨j, hj⟩).1 = 4 * j) ∧
    (∀ e ∈ ([] : List (String × ℕ)), e.2 % 4 = 0) :=
  C9_word_addresses [⟨1, none, some "addi", ["x1", "x0", "10"], "addi x1, x0, 10", false⟩]
    [] 4 [0x00a00093] [(0, "addi x1, x0, 10", 1)] (by decide) (by decide)

end RiscVibe